import Mathlib

/-!
Verification development for the qualia outline/note engine.

The Python sources under `rplugin/python3/qualia/` are shallowly embedded:
text lines and node ids are `List Char`, insertion-ordered dictionaries are
association lists, `OrderedSet` values are duplicate-free lists, and the
stateful walkers become explicit state passing.  Helper modules that are not
part of the available sources (`qualia.utils.common_utils`, `qualia.models`,
`qualia.database`) are modelled from the specification; each such definition
carries a doc comment starting with `Modelled from the spec:`.
-/

namespace Qualia

/-- A text line, as a list of characters (no newline inside a line). -/
abbrev Line := List Char

/-- A node identifier.  In the repository these are 36-character canonical
UUID strings; the buffer-processing code treats them as opaque strings. -/
abbrev NodeId := List Char

/-! ### Generic helpers -/

/-- The last `n` elements of a list. -/
def lastN (n : Nat) (l : List α) : List α := l.drop (l.length - n)

/-- Decimal digit character for `d < 10` (used to embed Python `str(i)`). -/
def digitChar : Nat → Char
  | 0 => '0'
  | 1 => '1'
  | 2 => '2'
  | 3 => '3'
  | 4 => '4'
  | 5 => '5'
  | 6 => '6'
  | 7 => '7'
  | 8 => '8'
  | 9 => '9'
  | _ => '*'

/-- Fuelled big-endian decimal digits; fuel `n+1` suffices for input `n`. -/
def natCharsCore : Nat → Nat → List Char
  | 0, _ => []
  | fuel + 1, n =>
    if n < 10 then [digitChar n]
    else natCharsCore fuel (n / 10) ++ [digitChar (n % 10)]

/-- Decimal rendering of a natural number, as Python `str(i)` produces it. -/
def natChars (n : Nat) : List Char := natCharsCore (n + 1) n

/-- `c` is a decimal digit character. -/
def isDigitCh (c : Char) : Bool := '0' ≤ c && c ≤ '9'

/-- `c` is a lowercase hexadecimal digit. -/
def isHexLower (c : Char) : Bool := ('0' ≤ c && c ≤ '9') || ('a' ≤ c && c ≤ 'f')

/-- Helper for `isCanonUuid`: checks characters of `s` starting at offset `i`. -/
def isCanonUuidAux : Line → Nat → Bool
  | [], i => i == 36
  | c :: rest, i =>
    (if i = 8 ∨ i = 13 ∨ i = 18 ∨ i = 23 then c == '-' else isHexLower c) &&
      isCanonUuidAux rest (i + 1)

/-- `s` is a canonical lowercase hyphenated UUID rendering
(8-4-4-4-12 lowercase hex groups; 36 characters). -/
def isCanonUuid (s : Line) : Bool := isCanonUuidAux s 0

/-- Python `OrderedSet(iterable)`: first occurrences, in encounter order. -/
def osOfList (l : List NodeId) : List NodeId :=
  l.foldl (fun acc x => if x ∈ acc then acc else acc ++ [x]) []

/-- Python `OrderedSet.update(other)`: append the members of `other` that are
not yet present, keeping the existing order. -/
def osUpdate (s other : List NodeId) : List NodeId :=
  s ++ other.filter (fun x => x ∉ s)

/-- Truthiness of the Python symmetric difference `a ^ b` of two ordered sets:
`true` iff the two sets differ as sets. -/
def symmDiffNonempty (a b : List NodeId) : Bool :=
  a.any (fun x => x ∉ b) || b.any (fun x => x ∉ a)

/-! ### Configuration constants (config.py, with `OVERRIDE_ADVANCED_SETTINGS = False`) -/

/-- config.py: `GIT_SEARCH_URL = f"https://{_GIT_REPOSITORY}/search?q="`. -/
def GIT_SEARCH_URL : Line := "https://github.com/tejasvi8874/test/search?q=".toList

/-- config.py: `_SORT_SIBLINGS = False`. -/
def SORT_SIBLINGS : Bool := false

/-- config.py: `_CONFLICT_MARKER` sentinel line. -/
def CONFLICT_MARKER : Line := "__ミ๏ｖ๏彡__".toList

/-! ### Encryption (Modelled from the spec) -/

/-- Modelled from the spec: the symmetric line cipher (`encrypt_lines` /
`decrypt_lines` in the missing `qualia.utils.common_utils`) emits one opaque
newline-free token per input line and is inverted exactly by decryption.  It
is modelled as an injective escape code with a fixed prefix; the claims only
use that decryption inverts encryption and that tokens contain no newline. -/
def encrypt_char (c : Char) : List Char :=
  if c = '\n' then ['\\', 'n'] else if c = '\\' then ['\\', '\\'] else [c]

/-- One encrypted token for one line (see `encrypt_char`). -/
def encrypt_line (l : Line) : Line := "fernet:".toList ++ (l.map encrypt_char).flatten

/-- Modelled from the spec: inverse of the escape code of `encrypt_line`. -/
def unescape : List Char → Line
  | [] => []
  | c :: rest =>
    if c = '\\' then
      match rest with
      | [] => []
      | d :: rest2 => (if d = 'n' then '\n' else d) :: unescape rest2
    else c :: unescape rest

/-- Modelled from the spec: decryption of one token (see `encrypt_line`). -/
def decrypt_line (l : Line) : Line :=
  if "fernet:".toList.isPrefixOf l then unescape (l.drop 7) else l

/-- `encrypt_lines`: one token per line. -/
def encrypt_lines (ls : List Line) : List Line := ls.map encrypt_line

/-- `decrypt_lines`: one line per token. -/
def decrypt_lines (ls : List Line) : List Line := ls.map decrypt_line

theorem unescape_cons (c : Char) (rest : List Char) :
    unescape (c :: rest) =
      if c = '\\' then
        (match rest with
         | [] => []
         | d :: rest2 => (if d = 'n' then '\n' else d) :: unescape rest2)
      else c :: unescape rest := by rw [unescape.eq_def]

theorem unescape_join_encrypt (l : Line) : unescape ((l.map encrypt_char).flatten) = l := by
  induction l with
  | nil => rfl
  | cons c rest ih =>
    by_cases hn : c = '\n'
    · subst hn; simpa [encrypt_char, unescape_cons] using ih
    · by_cases hb : c = '\\'
      · subst hb; simpa [encrypt_char, unescape_cons] using ih
      · simpa [encrypt_char, hn, hb, unescape_cons] using ih

theorem decrypt_encrypt_line (l : Line) : decrypt_line (encrypt_line l) = l := by
  have hpre : "fernet:".toList <+: encrypt_line l := ⟨(l.map encrypt_char).flatten, rfl⟩
  have hpreB : "fernet:".toList.isPrefixOf (encrypt_line l) = true :=
    List.isPrefixOf_iff_prefix.mpr hpre
  have hdrop : (encrypt_line l).drop 7 = (l.map encrypt_char).flatten := by
    simp [encrypt_line]
  unfold decrypt_line
  rw [if_pos hpreB, hdrop, unescape_join_encrypt]

theorem newline_not_mem_encrypt_line (l : Line) : '\n' ∉ encrypt_line l := by
  intro hmem
  simp only [encrypt_line, List.mem_append] at hmem
  rcases hmem with h | h
  · simp at h
  · rw [List.mem_flatten] at h
    obtain ⟨tok, htok, hc⟩ := h
    rw [List.mem_map] at htok
    obtain ⟨c, _, rfl⟩ := htok
    by_cases hn : c = '\n'
    · simp [encrypt_char, hn] at hc
    · by_cases hb : c = '\\'
      · simp [encrypt_char, hn, hb] at hc
      · simp [encrypt_char, hn, hb] at hc
        exact hn (hc ▸ rfl)

/-! ### Git file codec (services/utils/git_utils.py) -/

/-- git_utils.py: `_BACKLINK_LINE_START = "0. [`Backlinks`]"`. -/
def backlinkLineStart : Line := "0. [`Backlinks`]".toList

/-- git_utils.py: `_CONTENT_CHILDREN_SEPARATOR_LINES = ["<hr>", ""]`. -/
def contentChildrenSeparatorLines : List Line := ["<hr>".toList, "".toList]

/-- Insertion step of a simple insertion sort on ids (for `sorted(...)`). -/
def insSorted (le : NodeId → NodeId → Bool) (x : NodeId) : List NodeId → List NodeId
  | [] => [x]
  | y :: ys => if le x y then x :: y :: ys else y :: insSorted le x ys

/-- Lexicographic `≤` on ids, as Python string comparison orders them. -/
def idLeB : NodeId → NodeId → Bool
  | [], _ => true
  | _ :: _, [] => false
  | a :: as, b :: bs => if a = b then idLeB as bs else decide (a < b)

/-- Python `sorted` on a list of id strings. -/
def sortIds (l : List NodeId) : List NodeId := l.foldr (insSorted idLeB) []

/-- The numbered child-reference line `f"{i}. [`{child_id}`]({child_id}.md)"`
written by `create_markdown_file` (git_utils.py:64). -/
def childRefLine (i : Nat) (child_id : NodeId) : Line :=
  natChars i ++ ". [`".toList ++ child_id ++ "`](".toList ++ child_id ++ ".md)".toList

/-- The list of lines `create_markdown_file` (git_utils.py:57-66) writes for a
node `node_id` holding content `content_lines` whose valid children are
`children_ids`, when the working tree is (`repository_encrypted`) or is not
marked encrypted.  The database reads of the Python function
(`get_node_content_lines`, `get_node_descendants`) are the two list
arguments; the file-system write is the returned line list. -/
def create_markdown_file (node_id : NodeId) (content_lines : List Line)
    (children_ids : List NodeId) (repository_encrypted : Bool) : List Line :=
  let markdown_file_lines :=
    if repository_encrypted then encrypt_lines content_lines else content_lines
  let markdown_file_lines := markdown_file_lines ++ contentChildrenSeparatorLines
  let markdown_file_lines := markdown_file_lines ++
    [backlinkLineStart ++ "(".toList ++ GIT_SEARCH_URL ++ node_id ++ ")".toList]
  markdown_file_lines ++
    ((if SORT_SIBLINGS then sortIds children_ids else children_ids).enum.map
      fun p => childRefLine p.1 p.2)

/-- Python `'\n'.join(lines)`. -/
def joinNl : List Line → List Char
  | [] => []
  | [l] => l
  | l :: l2 :: ls => l ++ '\n' :: joinNl (l2 :: ls)

/-- The file content written for a line list: `'\n'.join(lines) + '\n'`. -/
def fileOfLines (ls : List Line) : List Char := joinNl ls ++ ['\n']

/-- Split on `'\n'`, keeping a (possibly empty) trailing part. -/
def splitOnNl : List Char → List Line
  | [] => [[]]
  | c :: rest =>
    if c = '\n' then [] :: splitOnNl rest
    else
      match splitOnNl rest with
      | [] => [[c]]
      | p :: ps => (c :: p) :: ps

/-- Python `str.splitlines()` restricted to `'\n'` separators (the only
separator the repository's files contain): no trailing empty line is produced
for a trailing newline, and the empty string yields no lines. -/
def py_splitlines (s : List Char) : List Line :=
  if s = [] then []
  else if s.getLast? = some '\n' then (splitOnNl s).dropLast else splitOnNl s

/-- `file_children_line_to_node_id` (git_utils.py:70-73): extract the child id
from a reference line.  The Python function runs
`re.search(r"[0-9a-f]{8}(?:-?[0-9a-f]{4}){4}[0-9a-f]{8}(?=\.md\)$)", line)`
and asserts a match; on the lines the repository writes (a canonical UUID
immediately followed by `.md)` at end of line, preceded by a non-hex
character) the leftmost match is exactly that canonical UUID, which is what
this embedding returns; a failing assert becomes `none`. -/
def file_children_line_to_node_id (line : Line) : Option NodeId :=
  if lastN 4 line = ".md)".toList then
    let core := line.take (line.length - 4)
    let cand := lastN 36 core
    if isCanonUuid cand then some cand else none
  else none

/-- The pop-from-the-end loop of `repository_file_to_content_children`
(git_utils.py:80-86), on the reversed line list.  `acc` collects child ids in
file order (each popped child line is prepended, matching Python's
`OrderedSet(reversed(children_ids))`).  A failing `assert` or an exhausted
list where Python would raise becomes `none`. -/
def repository_file_go : List Line → List NodeId → Option (List Line × List NodeId)
  | [], acc => some ([], osOfList acc)
  | line :: rest, acc =>
    if backlinkLineStart.isPrefixOf line then
      match rest with
      | sep1 :: sep0 :: rest2 =>
        if sep1 = "".toList ∧ sep0 = "<hr>".toList then
          some (rest2.reverse, osOfList acc)
        else none
      | _ => none
    else
      match file_children_line_to_node_id line with
      | some cid => repository_file_go rest (cid :: acc)
      | none => none

/-- `repository_file_to_content_children` (git_utils.py:76-89): parse a
per-node file back into (content lines, ordered child-id set). -/
def repository_file_to_content_children (file : List Char) (encrypted : Bool) :
    Option (List Line × List NodeId) :=
  (repository_file_go (py_splitlines file).reverse []).map
    fun p => (if encrypted then decrypt_lines p.1 else p.1, p.2)

/-! ### Round-trip lemmas for the file codec -/

theorem natCharsCore_digits :
    ∀ fuel n, n < fuel →
      natCharsCore fuel n ≠ [] ∧ ∀ c ∈ natCharsCore fuel n, isDigitCh c = true := by
  intro fuel
  induction fuel with
  | zero => intro n h; omega
  | succ fuel ih =>
    intro n h
    have hdig : ∀ m, m < 10 → isDigitCh (digitChar m) = true := by decide
    by_cases hlt : n < 10
    · have hd : isDigitCh (digitChar n) = true := hdig n hlt
      simp [natCharsCore, hlt, hd]
    · have hdiv : n / 10 < fuel := by
        have h1 : n / 10 < n := Nat.div_lt_self (by omega) (by omega)
        omega
      obtain ⟨hne, hall⟩ := ih (n / 10) hdiv
      have hd : isDigitCh (digitChar (n % 10)) = true :=
        hdig (n % 10) (Nat.mod_lt _ (by omega))
      refine ⟨by simp [natCharsCore, hlt], ?_⟩
      intro c hc
      simp only [natCharsCore, if_neg hlt, List.mem_append, List.mem_singleton] at hc
      rcases hc with hc | rfl
      · exact hall c hc
      · exact hd

theorem natChars_ne_nil (n : Nat) : natChars n ≠ [] :=
  (natCharsCore_digits (n + 1) n (by omega)).1

theorem natChars_digits (n : Nat) : ∀ c ∈ natChars n, isDigitCh c = true :=
  (natCharsCore_digits (n + 1) n (by omega)).2

theorem isCanonUuidAux_length :
    ∀ (s : Line) (i : Nat), isCanonUuidAux s i = true → s.length + i = 36 := by
  intro s
  induction s with
  | nil => intro i h; simpa [isCanonUuidAux] using h
  | cons c rest ih =>
    intro i h
    simp only [isCanonUuidAux, Bool.and_eq_true] at h
    have := ih (i + 1) h.2
    simp [List.length_cons]
    omega

theorem isCanonUuid_length (s : Line) (h : isCanonUuid s = true) : s.length = 36 := by
  have := isCanonUuidAux_length s 0 h
  omega

theorem isCanonUuidAux_chars :
    ∀ (s : Line) (i : Nat), isCanonUuidAux s i = true →
      ∀ c ∈ s, c = '-' ∨ isHexLower c = true := by
  intro s
  induction s with
  | nil => intro i _ c hc; simp at hc
  | cons c0 rest ih =>
    intro i h c hc
    simp only [isCanonUuidAux, Bool.and_eq_true] at h
    rcases List.mem_cons.mp hc with rfl | hc
    · by_cases hi : i = 8 ∨ i = 13 ∨ i = 18 ∨ i = 23
      · left
        have := h.1
        rw [if_pos hi] at this
        exact eq_of_beq this
      · right
        have := h.1
        rwa [if_neg hi] at this
    · exact ih (i + 1) h.2 c hc

theorem isCanonUuid_no_newline (s : Line) (h : isCanonUuid s = true) : '\n' ∉ s := by
  intro hmem
  rcases isCanonUuidAux_chars s 0 h '\n' hmem with h1 | h1
  · exact absurd h1 (by decide)
  · exact absurd h1 (by decide)

theorem isCanonUuid_head_hex (c : Char) (rest : Line)
    (h : isCanonUuid (c :: rest) = true) : isHexLower c = true := by
  simp only [isCanonUuid, isCanonUuidAux, Bool.and_eq_true] at h
  have := h.1
  rwa [if_neg (by omega)] at this

theorem splitOnNl_append (l : Line) (hl : '\n' ∉ l) (t : List Char) :
    splitOnNl (l ++ '\n' :: t) = l :: splitOnNl t := by
  induction l with
  | nil => simp [splitOnNl]
  | cons c rest ih =>
    have hc : c ≠ '\n' := fun hc => hl (hc ▸ List.mem_cons_self c rest)
    have hrest : '\n' ∉ rest := fun hm => hl (List.mem_cons_of_mem c hm)
    have hthis := ih hrest
    simp only [List.cons_append, splitOnNl, if_neg hc]
    rw [show rest.append ('\n' :: t) = rest ++ '\n' :: t from rfl, hthis]

theorem splitOnNl_joinNl :
    ∀ ls : List Line, ls ≠ [] → (∀ l ∈ ls, '\n' ∉ l) →
      splitOnNl (joinNl ls ++ ['\n']) = ls ++ [[]] := by
  intro ls
  induction ls with
  | nil => intro h; exact absurd rfl h
  | cons l rest ih =>
    intro _ hnl
    match rest with
    | [] =>
      have : joinNl [l] = l := rfl
      rw [this]
      have hl : '\n' ∉ l := hnl l (List.mem_cons_self l [])
      have : (l : List Char) ++ ['\n'] = l ++ '\n' :: [] := rfl
      rw [this, splitOnNl_append l hl]
      rfl
    | l2 :: rest2 =>
      have hj : joinNl (l :: l2 :: rest2) = l ++ '\n' :: joinNl (l2 :: rest2) := rfl
      have hl : '\n' ∉ l := hnl l (List.mem_cons_self l _)
      have hrec := ih (by simp) (fun x hx => hnl x (List.mem_cons_of_mem l hx))
      rw [hj, List.append_assoc, List.cons_append, splitOnNl_append l hl, hrec]
      rfl

theorem py_splitlines_fileOfLines (ls : List Line) (hne : ls ≠ [])
    (hnl : ∀ l ∈ ls, '\n' ∉ l) : py_splitlines (fileOfLines ls) = ls := by
  have hsplit := splitOnNl_joinNl ls hne hnl
  have hlast : (joinNl ls ++ ['\n']).getLast? = some '\n' := by
    simp
  have hnotnil : joinNl ls ++ ['\n'] ≠ [] := by simp
  simp only [py_splitlines, fileOfLines, if_neg hnotnil, hlast, if_pos rfl, hsplit,
    List.dropLast_concat]
  simp

theorem osOfList_foldl (l : List NodeId) (hl : l.Nodup) :
    ∀ acc : List NodeId, (∀ x ∈ l, x ∉ acc) →
      l.foldl (fun acc x => if x ∈ acc then acc else acc ++ [x]) acc = acc ++ l := by
  induction l with
  | nil => intro acc _; simp
  | cons x xs ih =>
    intro acc hdisj
    have hx : x ∉ acc := hdisj x (List.mem_cons_self x xs)
    have hnd : xs.Nodup := hl.of_cons
    have hxnot : x ∉ xs := (List.nodup_cons.mp hl).1
    have hstep : ∀ y ∈ xs, y ∉ acc ++ [x] := by
      intro y hy hmem
      rcases List.mem_append.mp hmem with h | h
      · exact hdisj y (List.mem_cons_of_mem x hy) h
      · rcases List.mem_singleton.mp h with rfl
        exact hxnot hy
    have := ih hnd (acc ++ [x]) hstep
    simp only [List.foldl_cons, if_neg hx, this, List.append_assoc, List.singleton_append]

theorem osOfList_eq_self (l : List NodeId) (hl : l.Nodup) : osOfList l = l := by
  have := osOfList_foldl l hl [] (by simp)
  simpa [osOfList] using this

theorem decrypt_lines_encrypt_lines (ls : List Line) :
    decrypt_lines (encrypt_lines ls) = ls := by
  have hcomp : decrypt_line ∘ encrypt_line = id := funext decrypt_encrypt_line
  simp only [decrypt_lines, encrypt_lines, List.map_map, hcomp, List.map_id]

theorem lastN_append {α : Type} (a b : List α) : lastN b.length (a ++ b) = b := by
  have : (a ++ b).length - b.length = a.length := by
    simp
  rw [lastN, this, List.drop_left]

theorem take_len_sub_append {α : Type} (a b : List α) :
    (a ++ b).take ((a ++ b).length - b.length) = a := by
  have : (a ++ b).length - b.length = a.length := by
    simp
  rw [this, List.take_left]

theorem newline_not_mem_childRefLine (i : Nat) (cid : NodeId)
    (h : isCanonUuid cid = true) : '\n' ∉ childRefLine i cid := by
  intro hmem
  simp only [childRefLine, List.mem_append] at hmem
  rcases hmem with ((((hd | hc) | hc) | hc) | hc) | hc
  · have := natChars_digits i '\n' hd
    exact absurd this (by decide)
  · revert hc; decide
  · exact isCanonUuid_no_newline cid h hc
  · revert hc; decide
  · exact isCanonUuid_no_newline cid h hc
  · revert hc; decide

theorem not_backlink_isPrefixOf_childRefLine (i : Nat) (cid : NodeId)
    (h : isCanonUuid cid = true) :
    backlinkLineStart.isPrefixOf (childRefLine i cid) = false := by
  rw [Bool.eq_false_iff]
  intro htrue
  obtain ⟨t, ht⟩ := List.isPrefixOf_iff_prefix.mp htrue
  have hlen : cid.length = 36 := isCanonUuid_length cid h
  obtain ⟨c0, cs, rfl⟩ : ∃ c0 cs, cid = c0 :: cs := by
    cases cid with
    | nil => simp at hlen
    | cons c0 cs => exact ⟨c0, cs, rfl⟩
  have hhex : isHexLower c0 = true := isCanonUuid_head_hex c0 cs h
  have hds := natChars_ne_nil i
  have hdigits := natChars_digits i
  rcases hd : natChars i with _ | ⟨d1, ds⟩
  · exact hds hd
  rw [childRefLine, hd, backlinkLineStart] at ht
  rcases hd2 : ds with _ | ⟨d2, ds2⟩
  · -- single digit: the sixth character of the line is the first uuid
    -- character, which is lowercase hex and never 'B'
    rw [hd2] at ht
    simp at ht
    obtain ⟨h1, h2, h3⟩ := ht
    rw [← h2] at hhex
    exact absurd hhex (by decide)
  · -- at least two digits: the second character of the line is a digit,
    -- never the '.' the backlink prefix requires
    rw [hd2] at ht
    simp at ht
    obtain ⟨h1, h2, h3⟩ := ht
    have hdig2 : isDigitCh d2 = true :=
      hdigits d2 (by rw [hd, hd2]; exact List.mem_cons_of_mem _ (List.mem_cons_self _ _))
    rw [← h2] at hdig2
    exact absurd hdig2 (by decide)

theorem file_children_line_to_node_id_childRefLine (i : Nat) (cid : NodeId)
    (h : isCanonUuid cid = true) :
    file_children_line_to_node_id (childRefLine i cid) = some cid := by
  have hlen : cid.length = 36 := isCanonUuid_length cid h
  have hgrp : childRefLine i cid =
      ((natChars i ++ ". [`".toList ++ cid ++ "`](".toList) ++ cid) ++ ".md)".toList := by
    simp [childRefLine, List.append_assoc]
  have hmd4 : (".md)".toList : List Char).length = 4 := by decide
  have hsuffix : lastN 4 (childRefLine i cid) = ".md)".toList := by
    rw [hgrp, ← hmd4, lastN_append]
  have hcore : (childRefLine i cid).take ((childRefLine i cid).length - 4) =
      (natChars i ++ ". [`".toList ++ cid ++ "`](".toList) ++ cid := by
    conv_lhs => rw [hgrp, ← hmd4]
    exact take_len_sub_append _ _
  have hcand :
      lastN 36 ((natChars i ++ ". [`".toList ++ cid ++ "`](".toList) ++ cid) = cid := by
    rw [← hlen, lastN_append]
  rw [file_children_line_to_node_id, if_pos hsuffix]
  simp only [hcore, hcand, if_pos h]

theorem repository_file_go_child (line : Line) (rest : List Line) (acc : List NodeId)
    (cid : NodeId)
    (hnb : backlinkLineStart.isPrefixOf line = false)
    (hparse : file_children_line_to_node_id line = some cid) :
    repository_file_go (line :: rest) acc = repository_file_go rest (cid :: acc) := by
  simp only [repository_file_go, hnb, Bool.false_eq_true, if_false, hparse]

theorem snd_mem_of_mem_enumFrom {α : Type} :
    ∀ (l : List α) (n : Nat) (p : Nat × α), p ∈ l.enumFrom n → p.2 ∈ l := by
  intro l
  induction l with
  | nil => intro n p h; simp at h
  | cons x xs ih =>
    intro n p h
    rw [List.enumFrom_cons] at h
    rcases List.mem_cons.mp h with rfl | h
    · exact List.mem_cons_self _ _
    · exact List.mem_cons_of_mem _ (ih (n + 1) p h)

theorem repository_file_go_children (pairs : List (Nat × NodeId))
    (h : ∀ p ∈ pairs, isCanonUuid p.2 = true) :
    ∀ (rest : List Line) (acc : List NodeId),
      repository_file_go ((pairs.map fun p => childRefLine p.1 p.2).reverse ++ rest) acc =
        repository_file_go rest (pairs.map Prod.snd ++ acc) := by
  induction pairs with
  | nil => intro rest acc; simp
  | cons p ps ih =>
    intro rest acc
    have hp : isCanonUuid p.2 = true := h p (List.mem_cons_self p ps)
    have hps : ∀ q ∈ ps, isCanonUuid q.2 = true :=
      fun q hq => h q (List.mem_cons_of_mem p hq)
    have h769 : ((p :: ps).map fun q => childRefLine q.1 q.2).reverse ++ rest =
        (ps.map fun q => childRefLine q.1 q.2).reverse ++ (childRefLine p.1 p.2 :: rest) := by
      simp
    rw [h769, ih hps]
    rw [repository_file_go_child _ _ _ p.2
      (not_backlink_isPrefixOf_childRefLine p.1 p.2 hp)
      (file_children_line_to_node_id_childRefLine p.1 p.2 hp)]
    simp

/-- **C1.** Round-trip of the per-node git file format: exporting a node
holding content lines `L` and ordered child-id set `C` with
`create_markdown_file` and parsing the written file back with
`repository_file_to_content_children` yields exactly `(L, C)` — content
equality and children equality with order preserved — both when the working
tree is marked encrypted and when it is not. -/
theorem markdown_file_roundtrip (node_id : NodeId) (L : List Line) (C : List NodeId)
    (enc : Bool)
    (hL : ∀ l ∈ L, '\n' ∉ l)
    (hid : isCanonUuid node_id = true)
    (hC : ∀ c ∈ C, isCanonUuid c = true)
    (hnd : C.Nodup) :
    repository_file_to_content_children
        (fileOfLines (create_markdown_file node_id L C enc)) enc = some (L, C) := by
  classical
  set cp : List Line := if enc then encrypt_lines L else L with hcp
  have hcpnl : ∀ l ∈ cp, '\n' ∉ l := by
    intro l hl
    rw [hcp] at hl
    by_cases he : enc
    · rw [if_pos he] at hl
      simp only [encrypt_lines, List.mem_map] at hl
      obtain ⟨x, _, rfl⟩ := hl
      exact newline_not_mem_encrypt_line x
    · rw [if_neg he] at hl
      exact hL l hl
  set bl : Line := backlinkLineStart ++ "(".toList ++ GIT_SEARCH_URL ++ node_id ++ ")".toList
    with hbl
  have hblnl : '\n' ∉ bl := by
    intro hmem
    rw [hbl] at hmem
    simp only [List.mem_append] at hmem
    rcases hmem with (((hc | hc) | hc) | hc) | hc
    · revert hc; decide
    · revert hc; decide
    · revert hc; decide
    · exact isCanonUuid_no_newline node_id hid hc
    · revert hc; decide
  set childLines : List Line := C.enum.map (fun p => childRefLine p.1 p.2) with hch
  have hbody : create_markdown_file node_id L C enc =
      cp ++ contentChildrenSeparatorLines ++ [bl] ++ childLines := by
    simp [create_markdown_file, SORT_SIBLINGS, hcp, hbl, hch]
  have henum : ∀ p ∈ C.enum, isCanonUuid p.2 = true := by
    intro p hp
    exact hC p.2 (snd_mem_of_mem_enumFrom C 0 p hp)
  have hbodynl : ∀ l ∈ create_markdown_file node_id L C enc, '\n' ∉ l := by
    intro l hl
    rw [hbody, contentChildrenSeparatorLines] at hl
    simp only [List.mem_append, List.mem_singleton, List.mem_cons,
      List.not_mem_nil, or_false] at hl
    rcases hl with ((hc | (hc | hc)) | hc) | hc
    · exact hcpnl l hc
    · subst hc; decide
    · subst hc; decide
    · subst hc; exact hblnl
    · rw [hch] at hc
      simp only [List.mem_map] at hc
      obtain ⟨p, hp, rfl⟩ := hc
      exact newline_not_mem_childRefLine p.1 p.2 (henum p hp)
  have hbodyne : create_markdown_file node_id L C enc ≠ [] := by
    rw [hbody]
    simp [contentChildrenSeparatorLines]
  have hsplit := py_splitlines_fileOfLines _ hbodyne hbodynl
  rw [repository_file_to_content_children, hsplit, hbody]
  have hrev : (cp ++ contentChildrenSeparatorLines ++ [bl] ++ childLines).reverse =
      childLines.reverse ++ (bl :: "".toList :: "<hr>".toList :: cp.reverse) := by
    simp [contentChildrenSeparatorLines]
  rw [hrev, hch]
  rw [repository_file_go_children C.enum henum _ []]
  have hblpre : backlinkLineStart.isPrefixOf bl = true := by
    apply List.isPrefixOf_iff_prefix.mpr
    rw [hbl]
    exact ⟨"(".toList ++ GIT_SEARCH_URL ++ node_id ++ ")".toList, by simp⟩
  rw [repository_file_go, if_pos hblpre]
  simp only [List.append_nil, List.enum_map_snd, and_self, if_true]
  rw [osOfList_eq_self C hnd]
  simp only [Option.map_some', List.reverse_reverse]
  rw [hcp]
  by_cases he : enc
  · simp [he, decrypt_lines_encrypt_lines]
  · simp [he]

/-- A sample canonical node id. -/
def sampleUuidA : NodeId := "aaaaaaaa-bbbb-cccc-dddd-eeeeeeeeeeee".toList

/-- A second sample canonical node id. -/
def sampleUuidB : NodeId := "00000000-1111-2222-3333-444444444444".toList

/-- A third sample canonical node id. -/
def sampleUuidC : NodeId := "12345678-9abc-def0-1234-56789abcdef0".toList

/-- Witness for `markdown_file_roundtrip` at concrete inputs, in both the
encrypted and the unencrypted working-tree mode. -/
theorem markdown_file_roundtrip_witness :
    repository_file_to_content_children
        (fileOfLines (create_markdown_file sampleUuidC
          ["hello".toList, "world".toList] [sampleUuidA, sampleUuidB] true)) true
      = some (["hello".toList, "world".toList], [sampleUuidA, sampleUuidB])
    ∧ repository_file_to_content_children
        (fileOfLines (create_markdown_file sampleUuidC
          ["hello".toList, "world".toList] [sampleUuidA, sampleUuidB] false)) false
      = some (["hello".toList, "world".toList], [sampleUuidA, sampleUuidB]) :=
  ⟨markdown_file_roundtrip sampleUuidC _ _ true (by decide) (by decide) (by decide)
      (by decide),
    markdown_file_roundtrip sampleUuidC _ _ false (by decide) (by decide) (by decide)
      (by decide)⟩

/-! ### Conflict merge (Modelled from the spec) -/

/-- Longest common prefix of two line lists. -/
def commonPrefix : List Line → List Line → List Line
  | a :: as, b :: bs => if a = b then a :: commonPrefix as bs else []
  | _, _ => []

/-- Modelled from the spec (§4.1): the generic conflict-merge of the missing
`qualia.utils.common_utils.conflict`.  Identical leading/trailing runs are
passed through unchanged; the diverging middles are bracketed with the
conflict-marker sentinel, one copy of each side in a fixed order; the boolean
selects which side comes first at the call site (buffer.py passes `True` with
the newly seen lines first).  The claims only depend on which arguments are
passed where, not on this function's internals. -/
def conflict (new_lines old_lines : List Line) (new_first : Bool) : List Line :=
  if new_lines = old_lines then new_lines
  else
    let p := commonPrefix new_lines old_lines
    let a := new_lines.drop p.length
    let b := old_lines.drop p.length
    let s := (commonPrefix a.reverse b.reverse).reverse
    let aMid := a.take (a.length - s.length)
    let bMid := b.take (b.length - s.length)
    p ++ [CONFLICT_MARKER] ++
      (if new_first then aMid ++ [CONFLICT_MARKER] ++ bMid
       else bMid ++ [CONFLICT_MARKER] ++ aMid) ++ [CONFLICT_MARKER] ++ s

/-! ### Database model (Modelled from the spec, §4.4) and the git importer -/

/-- Modelled from the spec: the per-node database record — optionally present
content lines, the ordered child-id set, and the two unsynced markers. -/
structure DbNode where
  content : Option (List Line)
  children : List NodeId
  unsynced_children : Bool
  unsynced_content : Bool

/-- The database, as a total map from node id to its record (an absent node
has `content = none`). -/
abbrev Db := NodeId → DbNode

/-- Modelled from the spec: `get_node_descendants(node_id, include_collapsed,
only_valid)` returns the node's direct children, filtered to
currently-existing nodes (those whose content resolves) when `only_valid` is
set.  All call sites relevant to the claims pass `(False, True)`; the
`include_collapsed` flag is kept for signature fidelity only. -/
def get_node_descendants (db : Db) (node_id : NodeId)
    (_include_collapsed : Bool) (only_valid : Bool) : List NodeId :=
  if only_valid then (db node_id).children.filter (fun c => ((db c).content).isSome)
  else (db node_id).children

/-- Modelled from the spec: `pop_if_unsynced_children` — report whether the
children-unsynced marker was set and clear it. -/
def pop_if_unsynced_children (db : Db) (node_id : NodeId) : Bool × Db :=
  ((db node_id).unsynced_children,
    fun n => if n = node_id then
        { db n with unsynced_children := false }
      else db n)

/-- Modelled from the spec: `pop_if_unsynced_content` — report whether the
content-unsynced marker was set and clear it. -/
def pop_if_unsynced_content (db : Db) (node_id : NodeId) : Bool × Db :=
  ((db node_id).unsynced_content,
    fun n => if n = node_id then
        { db n with unsynced_content := false }
      else db n)

/-- Modelled from the spec: `set_node_descendants` persists the ordered
child-id set (the extra boolean of the Python signature is unused by the
claims). -/
def set_node_descendants (db : Db) (node_id : NodeId) (ids : List NodeId)
    (_flag : Bool) : Db :=
  fun n => if n = node_id then { db n with children := ids } else db n

/-- Modelled from the spec: `set_node_content_lines` persists the content and
clears the node's content-unsynced marker. -/
def set_node_content_lines (db : Db) (node_id : NodeId) (ls : List Line) : Db :=
  fun n =>
    if n = node_id then { db n with content := some ls, unsynced_content := false }
    else db n

/-- Loop body of `sync_git_to_db` (git.py:118-132) for one node of the
incoming change-set: merge children with the database's valid children when
the children-unsynced marker was pending, else overwrite; conflict-merge
content when the content-unsynced marker was pending (absent prior content
means "take incoming"), else overwrite. -/
def sync_node_git_to_db (db : Db) (entry : NodeId × List NodeId × List Line) : Db :=
  let cur_node_id := entry.1
  let children_ids := entry.2.1
  let content_lines := entry.2.2
  let pop1 := pop_if_unsynced_children db cur_node_id
  let db1 := pop1.2
  let children_ids :=
    if pop1.1 then osUpdate children_ids (get_node_descendants db1 cur_node_id false true)
    else children_ids
  let db2 := set_node_descendants db1 cur_node_id children_ids false
  let pop2 := pop_if_unsynced_content db2 cur_node_id
  let db3 := pop2.2
  let content_lines :=
    if pop2.1 then
      match (db3 cur_node_id).content with
      | none => content_lines
      | some db_content_lines => conflict content_lines db_content_lines true
    else content_lines
  set_node_content_lines db3 cur_node_id content_lines

/-- `sync_git_to_db` (git.py:118-132): process every node of the incoming
change-set in order. -/
def sync_git_to_db (changed_nodes : List (NodeId × List NodeId × List Line)) (db : Db) :
    Db :=
  changed_nodes.foldl sync_node_git_to_db db

theorem mem_osUpdate (s other : List NodeId) (x : NodeId) :
    x ∈ osUpdate s other ↔ x ∈ s ∨ x ∈ other := by
  constructor
  · intro h
    rcases List.mem_append.mp h with h | h
    · exact Or.inl h
    · exact Or.inr (List.mem_filter.mp h).1
  · intro h
    by_cases hs : x ∈ s
    · exact List.mem_append.mpr (Or.inl hs)
    · rcases h with h | h
      · exact absurd h hs
      · exact List.mem_append.mpr (Or.inr (List.mem_filter.mpr ⟨h, by simpa using hs⟩))

theorem get_node_descendants_pop_children (db : Db) (nid : NodeId) :
    get_node_descendants (pop_if_unsynced_children db nid).2 nid false true
      = get_node_descendants db nid false true := by
  simp only [get_node_descendants, pop_if_unsynced_children, if_true]
  apply List.filter_congr
  intro c _
  by_cases hc : c = nid
  · subst hc; rw [if_pos rfl]
  · rw [if_neg hc]

theorem sync_node_children_eq (db : Db) (nid : NodeId) (inc : List NodeId)
    (cont : List Line) :
    (sync_node_git_to_db db (nid, inc, cont) nid).children =
      (if (db nid).unsynced_children then
        osUpdate inc (get_node_descendants db nid false true) else inc) := by
  simp [sync_node_git_to_db, set_node_content_lines, pop_if_unsynced_content,
    set_node_descendants, get_node_descendants_pop_children]
  rfl

/-- **C3.** Git import overwrite-vs-merge (`sync_git_to_db`, git.py:118-132):
for a node of the incoming change-set, processed against the database state
`db` current at its turn — if the node's children-unsynced marker was
pending, the children stored afterwards are the union of the incoming
children and the database's existing valid children (no child id is lost,
incoming order first); if no marker was pending, the children stored
afterwards are exactly the incoming children. -/
theorem sync_git_to_db_children (db : Db) (nid : NodeId) (inc : List NodeId)
    (cont : List Line) :
    ((db nid).unsynced_children = true →
        (sync_git_to_db [(nid, inc, cont)] db nid).children
            = osUpdate inc (get_node_descendants db nid false true)
          ∧ ∀ c, c ∈ inc ∨ c ∈ get_node_descendants db nid false true →
              c ∈ (sync_git_to_db [(nid, inc, cont)] db nid).children)
    ∧ ((db nid).unsynced_children = false →
        (sync_git_to_db [(nid, inc, cont)] db nid).children = inc) := by
  have hstep : sync_git_to_db [(nid, inc, cont)] db = sync_node_git_to_db db (nid, inc, cont) :=
    rfl
  rw [hstep]
  constructor
  · intro hmark
    rw [sync_node_children_eq, if_pos hmark]
    exact ⟨rfl, fun c hc => (mem_osUpdate inc _ c).mpr hc⟩
  · intro hmark
    rw [sync_node_children_eq, hmark]
    simp

/-- A concrete database with a pending children-unsynced marker on
`sampleUuidA`. -/
def dbSample1 : Db := fun n =>
  if n = sampleUuidA then ⟨some [], [sampleUuidB], true, false⟩
  else if n = sampleUuidB then ⟨some [], [], false, false⟩
  else ⟨none, [], false, false⟩

/-- The same database without the pending marker. -/
def dbSample2 : Db := fun n =>
  if n = sampleUuidA then ⟨some [], [sampleUuidB], false, false⟩
  else if n = sampleUuidB then ⟨some [], [], false, false⟩
  else ⟨none, [], false, false⟩

/-- Witness for `sync_git_to_db_children` at a concrete database, for both
the pending-marker and the no-marker case. -/
theorem sync_git_to_db_children_witness :
    (dbSample1 sampleUuidA).unsynced_children = true
    ∧ (sync_git_to_db [(sampleUuidA, [sampleUuidC], [])] dbSample1 sampleUuidA).children
        = osUpdate [sampleUuidC] (get_node_descendants dbSample1 sampleUuidA false true)
    ∧ (dbSample2 sampleUuidA).unsynced_children = false
    ∧ (sync_git_to_db [(sampleUuidA, [sampleUuidC], [])] dbSample2 sampleUuidA).children
        = [sampleUuidC] :=
  ⟨rfl, ((sync_git_to_db_children dbSample1 sampleUuidA [sampleUuidC] []).1 rfl).1, rfl,
    (sync_git_to_db_children dbSample2 sampleUuidA [sampleUuidC] []).2 rfl⟩

/-! ### The changed-file set of fetch_from_remote (git.py) -/

/-- The changed-file-name computation after a clean merge in
`fetch_from_remote` (git.py:82-84): on the very first sync (no commit existed
before the merge, `commit_hash_before_merge is None`) the result is
`_GIT_FOLDER.glob("*.q.md")` — the working-tree files whose names end in
`.q.md`; on later syncs it is the `git diff --name-only` output. -/
def fetch_changed_file_names (first_sync : Bool) (git_folder_files : List (List Char))
    (diff_names : List (List Char)) : List (List Char) :=
  if first_sync then
    git_folder_files.filter (fun name => ".q.md".toList.isSuffixOf name)
  else diff_names

/-- The name of a per-node file in the git working tree:
`node_id + ".md"` (git_utils.py:65). -/
def node_git_file_name (node_id : NodeId) : List Char := node_id ++ ".md".toList

/-- **C9.** The first-sync changed-file set misses every per-node markdown
file: per-node files are named `<node-id>.md` (git_utils.py:65) while
`fetch_from_remote` globs `*.q.md` (git.py:82), so on the very first sync the
computed changed-file set is empty instead of "every tracked per-node
markdown file" — here evaluated at a working tree holding exactly one
per-node file. -/
theorem fetch_first_sync_misses_node_files :
    isCanonUuid sampleUuidB = true
    ∧ ".q.md".toList.isSuffixOf (node_git_file_name sampleUuidB) = false
    ∧ fetch_changed_file_names true [node_git_file_name sampleUuidB] [] = [] := by
  refine ⟨by decide, by decide, ?_⟩
  decide

/-! ### Editor-integration sync gate (utils/plugin_utils.py, should_continue) -/

/-- (editor buffer number, resolved file path). -/
abbrev BufferId := Nat × List Char

/-- One entry of the editor's `undotree()['entries']` list, as the Python code
inspects it: `cur_undo_seq in undo_entry` is dictionary *key* membership, so
only integer-valued keys can ever match (the host sends string keys such as
`'seq'`/`'alt'`, making the match vacuous there); `'alt' in undo_entry` is
the `hasAlt` flag. -/
structure UndoEntry where
  intKeys : List Int
  hasAlt : Bool

/-- The editor-side inputs `should_continue` queries:  `mode()`, the current
buffer's name, `undotree()` fields, the resolved buffer identity, and
`b:changedtick` (modelled as always resolving; the Python `except OSError`
reporting path is not modelled). -/
structure NvimView where
  mode : List Char
  buffer_name : List Char
  seq_cur : Int
  seq_last : Int
  synced : Int
  entries : List UndoEntry
  current_buffer : Option BufferId
  changedtick : Int

/-- The per-buffer tracking state of `PluginUtils`: the `enabled` flag, the
debugger flag, `undo_seq` (a dict), `changedtick` (a `defaultdict` with
default `-1`, modelled as a total map), and the keys of `buffer_last_sync`
that hold a cached `LastSync` record. -/
structure PluginState where
  enabled : Bool
  ide_debugging : Bool
  undo_seq : List (BufferId × Int)
  changedtick : BufferId → Int
  buffer_last_sync : List BufferId

/-- Python dict assignment `m[k] = v`: replace in place or append. -/
def dput {α β : Type} [DecidableEq α] : List (α × β) → α → β → List (α × β)
  | [], k, v => [(k, v)]
  | (k', v') :: t, k, v => if k' = k then (k, v) :: t else (k', v') :: dput t k v

/-- Python dict lookup `m.get(k)`. -/
def dlookup {α β : Type} [DecidableEq α] : List (α × β) → α → Option β
  | [], _ => none
  | (k', v') :: t, k => if k' = k then some v' else dlookup t k

/-- Tail of `should_continue` (plugin_utils.py:206-219): record the undo
sequence, then gate on `b:changedtick` and record it on the way to `True`. -/
def should_continue_tail (nv : NvimView) (force : Bool) (st : PluginState)
    (buffer_id : BufferId) : Bool × PluginState :=
  if ¬force ∧ nv.changedtick = st.changedtick buffer_id then
    (false, { st with undo_seq := dput st.undo_seq buffer_id nv.seq_cur })
  else
    (true, { st with
      undo_seq := dput st.undo_seq buffer_id nv.seq_cur
      changedtick := fun b => if b = buffer_id then nv.changedtick else st.changedtick b })

/-- The alternate-undo-branch scan of `should_continue` (plugin_utils.py:
201-205): walk `entries` from the end, stop at the first entry whose keys
contain `cur_undo_seq`, and discard the buffer's cached `LastSync` when that
entry carries `'alt'`. -/
def should_continue_alt (nv : NvimView) (st : PluginState) (buffer_id : BufferId) :
    PluginState :=
  match nv.entries.reverse.find? (fun e => e.intKeys.contains nv.seq_cur) with
  | some e =>
    if e.hasAlt then { st with buffer_last_sync := st.buffer_last_sync.erase buffer_id }
    else st
  | none => st

/-- `should_continue(force)` (plugin_utils.py:176-219), returning the boolean
together with the updated tracking state. -/
def should_continue (nv : NvimView) (force : Bool) (st : PluginState) :
    Bool × PluginState :=
  if ¬force ∧ st.ide_debugging ∧ ¬(nv.mode = "n".toList) then (false, st)
  else if ¬(st.enabled ∧ (force ∨ nv.mode = "n".toList)
      ∧ ".q.md".toList.isSuffixOf nv.buffer_name) then (false, st)
  else if (st.ide_debugging ∧ nv.synced = 0) ∨ nv.seq_cur < nv.seq_last then (false, st)
  else
    match nv.current_buffer with
    | none => (false, st)
    | some buffer_id =>
      match dlookup st.undo_seq buffer_id with
      | some last_processed_undo_seq =>
        if nv.seq_cur < last_processed_undo_seq
            ∨ (nv.seq_cur = last_processed_undo_seq ∧ ¬force) then (false, st)
        else should_continue_tail nv force (should_continue_alt nv st buffer_id) buffer_id
      | none => should_continue_tail nv force st buffer_id

theorem dlookup_dput_self {α β : Type} [DecidableEq α] (m : List (α × β)) (k : α) (v : β) :
    dlookup (dput m k v) k = some v := by
  induction m with
  | nil => simp [dput, dlookup]
  | cons p t ih =>
    by_cases hk : p.1 = k
    · simp [dput, hk, dlookup]
    · simp [dput, hk, dlookup, ih]

theorem should_continue_alt_fields (nv : NvimView) (st : PluginState) (bid : BufferId) :
    (should_continue_alt nv st bid).changedtick = st.changedtick
    ∧ (should_continue_alt nv st bid).undo_seq = st.undo_seq
    ∧ (should_continue_alt nv st bid).enabled = st.enabled
    ∧ (should_continue_alt nv st bid).ide_debugging = st.ide_debugging := by
  unfold should_continue_alt
  split
  · split
    · exact ⟨rfl, rfl, rfl, rfl⟩
    · exact ⟨rfl, rfl, rfl, rfl⟩
  · exact ⟨rfl, rfl, rfl, rfl⟩

theorem should_continue_alt_bls (nv : NvimView) (st : PluginState) (bid : BufferId) :
    (should_continue_alt nv st bid).buffer_last_sync = st.buffer_last_sync
    ∨ (should_continue_alt nv st bid).buffer_last_sync
        = st.buffer_last_sync.erase bid := by
  unfold should_continue_alt
  split
  · split
    · right; rfl
    · left; rfl
  · left; rfl

theorem should_continue_tail_tick_equal (nv : NvimView) (st : PluginState)
    (bid : BufferId) (h : nv.changedtick = st.changedtick bid) :
    should_continue_tail nv false st bid
      = (false, { st with undo_seq := dput st.undo_seq bid nv.seq_cur }) := by
  unfold should_continue_tail
  rw [if_pos ⟨by simp, h⟩]

theorem should_continue_cases (nv : NvimView) (force : Bool) (st : PluginState) :
    should_continue nv force st = (false, st)
    ∨ (∃ bid, nv.current_buffer = some bid
        ∧ should_continue nv force st
            = should_continue_tail nv force (should_continue_alt nv st bid) bid)
    ∨ (∃ bid, nv.current_buffer = some bid
        ∧ should_continue nv force st = should_continue_tail nv force st bid) := by
  unfold should_continue
  split
  · exact Or.inl rfl
  split
  · exact Or.inl rfl
  split
  · exact Or.inl rfl
  split
  · exact Or.inl rfl
  rename_i buffer_id heq
  split
  · split
    · exact Or.inl rfl
    · exact Or.inr (Or.inl ⟨buffer_id, heq, rfl⟩)
  · exact Or.inr (Or.inr ⟨buffer_id, heq, rfl⟩)

theorem should_continue_tail_cases (nv : NvimView) (force : Bool) (st : PluginState)
    (bid : BufferId) :
    should_continue_tail nv force st bid
        = (false, { st with undo_seq := dput st.undo_seq bid nv.seq_cur })
    ∨ (should_continue_tail nv force st bid).1 = true := by
  unfold should_continue_tail
  split
  · exact Or.inl rfl
  · exact Or.inr rfl

/-- **C7 (amended).** Gating behavior of `should_continue`
(plugin_utils.py:176-219): (1) when the current buffer's `b:changedtick`
equals its tracked change-counter and `force` is not set, the call returns
false; (2) when `force` is set *and the remaining gates pass* (layer enabled,
node-buffer name suffix, no undo-tree gate fires, buffer id resolves, the
tracked undo-sequence is not ahead of the current one), the call returns true
and records the new undo-sequence and change-counter; (3) a current buffer
whose name does not end in `.q.md` makes the call return false
unconditionally. -/
theorem should_continue_gating :
    (∀ (nv : NvimView) (st : PluginState) (bid : BufferId),
        nv.current_buffer = some bid → nv.changedtick = st.changedtick bid →
        (should_continue nv false st).1 = false)
    ∧ (∀ (nv : NvimView) (st : PluginState) (bid : BufferId),
        st.enabled = true → ".q.md".toList.isSuffixOf nv.buffer_name = true →
        ¬(st.ide_debugging = true ∧ nv.synced = 0) → nv.seq_last ≤ nv.seq_cur →
        nv.current_buffer = some bid →
        (∀ last, dlookup st.undo_seq bid = some last → last ≤ nv.seq_cur) →
        (should_continue nv true st).1 = true
          ∧ dlookup (should_continue nv true st).2.undo_seq bid = some nv.seq_cur
          ∧ (should_continue nv true st).2.changedtick bid = nv.changedtick)
    ∧ (∀ (nv : NvimView) (force : Bool) (st : PluginState),
        ".q.md".toList.isSuffixOf nv.buffer_name = false →
        (should_continue nv force st).1 = false) := by
  refine ⟨?_, ?_, ?_⟩
  · -- (1) unchanged change-counter without force
    intro nv st bid hbid htick
    rcases should_continue_cases nv false st with hc | ⟨b, hb, hc⟩ | ⟨b, hb, hc⟩
    · rw [hc]
    · have hbb : b = bid := by
        rw [hbid] at hb
        exact (Option.some.inj hb).symm
      subst hbb
      have halt := (should_continue_alt_fields nv st b).1
      have htick2 : nv.changedtick = (should_continue_alt nv st b).changedtick b := by
        rw [halt]; exact htick
      rw [hc, should_continue_tail_tick_equal nv _ b htick2]
    · have hbb : b = bid := by
        rw [hbid] at hb
        exact (Option.some.inj hb).symm
      subst hbb
      rw [hc, should_continue_tail_tick_equal nv st b htick]
  · -- (2) force with the remaining gates passing
    intro nv st bid hen hsuf hdbg hseq hbid hlast
    have hres : ∃ stx : PluginState, stx.undo_seq = st.undo_seq
        ∧ stx.changedtick = st.changedtick
        ∧ should_continue nv true st = should_continue_tail nv true stx bid := by
      unfold should_continue
      rw [if_neg (by simp)]
      rw [if_neg (fun hcon => hcon ⟨hen, Or.inl rfl, hsuf⟩)]
      rw [if_neg (by
        intro hcon
        rcases hcon with hcon | hcon
        · exact hdbg hcon
        · omega)]
      simp only [hbid]
      cases hlk : dlookup st.undo_seq bid with
      | none => exact ⟨st, rfl, rfl, rfl⟩
      | some last =>
        refine ⟨should_continue_alt nv st bid, (should_continue_alt_fields nv st bid).2.1,
          (should_continue_alt_fields nv st bid).1, ?_⟩
        simp only [hlk]
        rw [if_neg (by
          intro hcon
          rcases hcon with hcon | ⟨_, hf⟩
          · have := hlast last hlk
            omega
          · exact hf trivial)]
    obtain ⟨stx, hu, hc, hres⟩ := hres
    rw [hres]
    unfold should_continue_tail
    rw [if_neg (by simp)]
    refine ⟨rfl, ?_, ?_⟩
    · rw [show ((true, { stx with
          undo_seq := dput stx.undo_seq bid nv.seq_cur
          changedtick := fun b => if b = bid then nv.changedtick
            else stx.changedtick b }) : Bool × PluginState).2.undo_seq
          = dput stx.undo_seq bid nv.seq_cur from rfl]
      rw [hu]
      exact dlookup_dput_self st.undo_seq bid nv.seq_cur
    · show (if bid = bid then nv.changedtick else stx.changedtick bid) = nv.changedtick
      rw [if_pos rfl]
  · -- (3) name without the node-buffer suffix
    intro nv force st hsuf
    unfold should_continue
    split
    · rfl
    split
    · rfl
    rename_i h1 h2
    exfalso
    have hcon := not_not.mp h2
    rw [hsuf] at hcon
    exact Bool.false_ne_true hcon.2.2

/-- **C8 (amended).** Frame behavior of `should_continue` on a false return:
the tracked change-counter map, `enabled` and `ide_debugging` are never
changed; the tracked undo-sequence map is either unchanged or — only on the
final change-counter gate, for the resolved current buffer — updated to the
current undo sequence; the cached `LastSync` key set is either unchanged or
has at most the current buffer's entry discarded (the alternate-undo-branch
path).  The original claim's "all three maps unchanged on every
false-returning path" fails on the change-counter path. -/
theorem should_continue_false_frame (nv : NvimView) (force : Bool) (st : PluginState)
    (h : (should_continue nv force st).1 = false) :
    (should_continue nv force st).2.changedtick = st.changedtick
    ∧ (should_continue nv force st).2.enabled = st.enabled
    ∧ (should_continue nv force st).2.ide_debugging = st.ide_debugging
    ∧ ((should_continue nv force st).2.undo_seq = st.undo_seq
        ∨ ∃ bid, nv.current_buffer = some bid
            ∧ (should_continue nv force st).2.undo_seq = dput st.undo_seq bid nv.seq_cur)
    ∧ ((should_continue nv force st).2.buffer_last_sync = st.buffer_last_sync
        ∨ ∃ bid, nv.current_buffer = some bid
            ∧ (should_continue nv force st).2.buffer_last_sync
                = st.buffer_last_sync.erase bid) := by
  rcases should_continue_cases nv force st with hc | ⟨bid, hbid, hc⟩ | ⟨bid, hbid, hc⟩
  · rw [hc]
    exact ⟨rfl, rfl, rfl, Or.inl rfl, Or.inl rfl⟩
  · rcases should_continue_tail_cases nv force (should_continue_alt nv st bid) bid with
      ht | ht
    · rw [hc, ht]
      obtain ⟨ha1, ha2, ha3, ha4⟩ := should_continue_alt_fields nv st bid
      refine ⟨ha1, ha3, ha4, ?_, ?_⟩
      · right
        exact ⟨bid, hbid, by
          show dput (should_continue_alt nv st bid).undo_seq bid nv.seq_cur
            = dput st.undo_seq bid nv.seq_cur
          rw [ha2]⟩
      · rcases should_continue_alt_bls nv st bid with hb | hb
        · exact Or.inl hb
        · exact Or.inr ⟨bid, hbid, hb⟩
    · rw [hc, ht] at h
      exact absurd h (by simp)
  · rcases should_continue_tail_cases nv force st bid with ht | ht
    · rw [hc, ht]
      exact ⟨rfl, rfl, rfl, Or.inr ⟨bid, hbid, rfl⟩, Or.inl rfl⟩
    · rw [hc, ht] at h
      exact absurd h (by simp)

/-- A concrete editor view of a tracked node buffer in normal mode. -/
def nvSample : NvimView :=
  { mode := "n".toList
    buffer_name := "x.q.md".toList
    seq_cur := 6
    seq_last := 6
    synced := 1
    entries := []
    current_buffer := some (1, "x.q.md".toList)
    changedtick := 7 }

/-- The same view with a buffer name lacking the node-buffer suffix. -/
def nvBadName : NvimView := { nvSample with buffer_name := "x.md".toList }

/-- A plugin state with the layer disabled. -/
def stDisabled : PluginState :=
  { enabled := false
    ide_debugging := false
    undo_seq := []
    changedtick := fun _ => -1
    buffer_last_sync := [] }

/-- A plugin state tracking `nvSample`'s buffer with an older undo sequence
and an up-to-date change-counter. -/
def stTracked : PluginState :=
  { enabled := true
    ide_debugging := false
    undo_seq := [((1, "x.q.md".toList), 5)]
    changedtick := fun _ => 7
    buffer_last_sync := [] }

/-- Counterexample to C7 as stated: with `force` set but the layer disabled,
`should_continue` returns false — force does not make it "return true
regardless". -/
theorem should_continue_forced_but_disabled :
    (should_continue nvSample true stDisabled).1 = false := rfl

/-- Witness for `should_continue_gating` at concrete inputs. -/
theorem should_continue_gating_witness :
    (should_continue nvSample false stTracked).1 = false
    ∧ (should_continue nvSample true stTracked).1 = true
    ∧ dlookup (should_continue nvSample true stTracked).2.undo_seq
        (1, "x.q.md".toList) = some 6
    ∧ (should_continue nvSample true stTracked).2.changedtick
        (1, "x.q.md".toList) = 7
    ∧ (should_continue nvBadName false stTracked).1 = false := by
  have h2 := should_continue_gating.2.1 nvSample stTracked (1, "x.q.md".toList)
    rfl (by decide) (by simp [stTracked]) (by decide) rfl
    (by
      intro last hlk
      simp [stTracked, dlookup] at hlk
      simp [nvSample]
      omega)
  exact ⟨should_continue_gating.1 nvSample stTracked (1, "x.q.md".toList) rfl rfl,
    h2.1, h2.2.1, h2.2.2,
    should_continue_gating.2.2 nvBadName false stTracked (by decide)⟩

/-- Counterexample to C8 as stated: a false-returning call (change-counter
unchanged, not forced) that nevertheless updates the tracked undo-sequence
map. -/
theorem should_continue_false_updates_undo_seq :
    (should_continue nvSample false stTracked).1 = false
    ∧ (should_continue nvSample false stTracked).2.undo_seq ≠ stTracked.undo_seq := by
  refine ⟨rfl, ?_⟩
  intro hcon
  have : dput stTracked.undo_seq (1, "x.q.md".toList) 6 = stTracked.undo_seq := hcon
  simp [stTracked, dput] at this

/-- Witness for `should_continue_false_frame` at a concrete input. -/
theorem should_continue_false_frame_witness :
    (should_continue nvSample false stTracked).1 = false
    ∧ (should_continue nvSample false stTracked).2.changedtick
        = stTracked.changedtick :=
  ⟨rfl, (should_continue_false_frame nvSample false stTracked rfl).1⟩

/-! ### Buffer processing (buffer.py)

The markdown syntax tree the external `markdown_it` parser produces is taken
as the traversal's input (`MdItem`/`MdList`), carrying exactly the fields
`_process_list_item_ast` reads: the list-item markup character, the start
line of each node's token map, and the nesting of sub-lists and their items.
End lines are passed explicitly, mirroring the `token_obj.map = (start,
item_end)` overwrite of buffer.py:83 and `map[1]` of the root.  In Python
`_process_node` mutates `self._changes` during the walk while the tree
construction never reads it; the embedding therefore collects the
reconciliation calls in walk order and folds `process_node` over them
afterwards — the resulting `ProcessState` and any raised `DuplicateNode` are
identical. -/

/-- The dict-valued `Tree` of models.py: a node id maps to an expanded
sub-tree or to the "no value" collapsed marker (`None`). -/
inductive NTree where
  | mk : List (NodeId × Option NTree) → NTree

/-- The entries of a tree, in insertion order. -/
def NTree.entries : NTree → List (NodeId × Option NTree)
  | .mk es => es

/-- The keys of a tree, in insertion order (`OrderedSet(tree)`). -/
def NTree.keys (t : NTree) : List NodeId := t.entries.map Prod.fst

/-- Python falsiness of a dict. -/
def NTree.isEmpty (t : NTree) : Bool := t.entries.isEmpty

/-- The empty tree. -/
def NTree.empty : NTree := .mk []

/-- Python dict assignment `tree[k] = v`. -/
def NTree.insert (t : NTree) (k : NodeId) (v : Option NTree) : NTree :=
  .mk (dput t.entries k v)

/-- Python dict union `a | b` (also `a.update(b)`): `a`'s key order with
`b`'s values overriding, `b`-only keys appended in `b`'s order. -/
def NTree.union (a b : NTree) : NTree :=
  .mk (b.entries.foldl (fun es p => dput es p.1 p.2) a.entries)

mutual
inductive MdItem where
  | mk : (markup : Char) → (mapStart : Nat) → (subLists : MdLists) → MdItem
inductive MdLists where
  | nil : MdLists
  | cons : MdList → MdLists → MdLists
inductive MdList where
  | mk : (ordered : Bool) → (mapStart : Nat) → (items : MdItems) → MdList
inductive MdItems where
  | nil : MdItems
  | cons : MdItem → MdItems → MdItems
end

/-- Start line of a list node's token map. -/
def MdList.mapStart : MdList → Nat
  | .mk _ s _ => s

/-- Start line of an item's token map. -/
def MdItem.mapStart : MdItem → Nat
  | .mk _ s _ => s

/-- Python `str.index` for a character (the markup symbol is always present
in the lines the parser hands over; on absence Python raises, here the line
length is returned). -/
def charIndex (l : List Char) (c : Char) : Nat := l.findIdx (· = c)

/-- Split a list at the first occurrence of `c` (dropping it). -/
def splitAtChar (c : Char) : List Char → Option (List Char × List Char)
  | [] => none
  | x :: xs =>
    if x = c then some ([], xs)
    else (splitAtChar c xs).map (fun p => (x :: p.1, p.2))

/-- Modelled from the spec: `BufferNodeId` renders a node id into the
zero-width-link marker (optionally in a shortened display form); the codec
round-trips, and is modelled as the identity rendering. -/
def bufferNodeId (node_id : NodeId) : List Char := node_id

/-- The marker prefix `f"[](q://{BufferNodeId(id)})  "` that `process_lines`
(buffer.py:23) prepends to the first buffer line, and that rendered node
lines begin with (spec §6). -/
def mkMarker (node_id : NodeId) : List Char :=
  "[](q://".toList ++ bufferNodeId node_id ++ ")  ".toList

/-- Modelled from the spec: `split_id_from_line` extracts the embedded
node-id marker `[](q://<id>)` and the remaining text (after the two-space
gap) from a line, or returns the line unchanged when no marker is present. -/
def split_id_from_line (l : Line) : Option NodeId × Line :=
  if "[](q://".toList.isPrefixOf l then
    match splitAtChar ')' (l.drop 7) with
    | some p => (some p.1, if "  ".toList.isPrefixOf p.2 then p.2.drop 2 else p.2)
    | none => (none, l)
  else (none, l)

/-- Python `line.removeprefix(" " * indent)`. -/
def removeIndent (n : Nat) (l : Line) : Line :=
  if (List.replicate n ' ').isPrefixOf l then l.drop n else l

/-- Modelled from the spec: `get_node_id` mints a fresh random NodeId
(UUID4); the randomness is modelled as a supply counter.  All the
development uses is that distinct supply states mint distinct ids. -/
def minted_node_id (n : Nat) : NodeId := '~' :: natChars n

/-- Modelled from the spec (§4.6 step 3): `expand_consider_sub_list_tree` —
`-` expands and reconciles children, `*` expands for display only, `+`
neither expands nor reconciles; items of ordered lists (markup `.`/`)`)
behave as expanded and reconciled. -/
def expand_consider_sub_list_tree (markup : Char) : Bool × Bool :=
  if markup = '+' then (false, false)
  else if markup = '*' then (true, false)
  else (true, true)

/-- `DuplicateNodeException`: the offending id and the line ranges of its
occurrences at one level. -/
inductive DupErr where
  | dup : NodeId → List (Nat × Nat) → DupErr

/-- Ranges of the id occurrences at one level, alongside the level's tree. -/
abbrev Ranges := List (NodeId × List (Nat × Nat))

/-- Modelled from the spec: `raise_if_duplicate_sibling` — if the id is
already a key of the tree assembled at this level, raise `DuplicateNode`
carrying the id and the line ranges of all its occurrences at the level
(tracked in the companion `Ranges` map); otherwise record this occurrence's
range. -/
def raise_if_duplicate_sibling (node_id : NodeId) (range : Nat × Nat) (tree : NTree)
    (ranges : Ranges) : Except DupErr Ranges :=
  if node_id ∈ tree.keys then
    .error (.dup node_id (((dlookup ranges node_id).getD []) ++ [range]))
  else .ok (dput ranges node_id (((dlookup ranges node_id).getD []) ++ [range]))

/-- One `_process_node` invocation: the id, the content lines, and the
ordered child-id set when children are to be reconciled. -/
structure Call where
  id : NodeId
  content : List Line
  childrenOpt : Option (List NodeId)

/-- `ProcessState` (models.py): the diff of one parse pass. -/
structure ProcessState where
  changed_content_map : List (NodeId × List Line)
  changed_children_map : List (NodeId × List NodeId)

/-- The ledger's per-node record (§4.5). -/
structure LedgerEntry where
  content_lines : List Line
  children_ids : List NodeId

/-- `states.ledger`: last-synced content/children per node. -/
abbrev Ledger := NodeId → Option LedgerEntry

/-- `_process_node` (buffer.py:95-120): reconcile one node against the
ledger, staging content/children diffs into the `ProcessState`; a clone
reached twice merges content with `conflict(new, staged, True)` and unions
children. -/
def process_node (ledger : Ledger) (st : ProcessState) (c : Call) : ProcessState :=
  match ledger c.id with
  | none =>
    { changed_content_map := dput st.changed_content_map c.id c.content
      changed_children_map :=
        match c.childrenOpt with
        | some s => dput st.changed_children_map c.id s
        | none => st.changed_children_map }
  | some e =>
    let st1 :=
      if c.content ≠ e.content_lines then
        match dlookup st.changed_content_map c.id with
        | some staged =>
          { st with
            changed_content_map :=
              dput st.changed_content_map c.id (conflict c.content staged true) }
        | none =>
          { st with changed_content_map := dput st.changed_content_map c.id c.content }
      else st
    match c.childrenOpt with
    | some s =>
      if symmDiffNonempty s e.children_ids then
        match dlookup st1.changed_children_map c.id with
        | some staged =>
          { st1 with
            changed_children_map :=
              dput st1.changed_children_map c.id (osUpdate staged s) }
        | none =>
          { st1 with changed_children_map := dput st1.changed_children_map c.id s }
      else st1
    | none => st1

/-- Fold the walk's reconciliation calls over the ledger. -/
def apply_calls (ledger : Ledger) (calls : List Call) (st : ProcessState) :
    ProcessState :=
  calls.foldl (process_node ledger) st

/-- Result of processing one list item. -/
structure ItemOut where
  tree : NTree
  ranges : Ranges
  sub : NTree
  calls : List Call
  gensym : Nat

/-- Result of processing the sub-lists of one item. -/
structure TreeOut where
  tree : NTree
  calls : List Call
  gensym : Nat

/-- Intermediate result while processing one unordered list's items. -/
structure LevelOut where
  tree : NTree
  ranges : Ranges
  calls : List Call
  gensym : Nat

/-- Intermediate result while processing one ordered list's items in reverse
(the single-entry chain accumulator). -/
structure ChainOut where
  last : NTree
  calls : List Call
  gensym : Nat

mutual
/-- `_process_list_item_ast` (buffer.py:34-63): resolve the item's id and
content span, process its sub-lists, merge in the ordered-chain extension,
check for a duplicate sibling, store the item's tree entry and emit its
`_process_node` call. -/
def process_list_item_ast (lines : List Line) (isRoot : Bool) (ast : MdItem)
    (itemEnd : Nat) (tree : NTree) (ranges : Ranges) (ext : NTree) (gensym : Nat) :
    Except DupErr ItemOut :=
  match ast with
  | .mk markup mapStart subLists =>
    let contentIndent := if isRoot then 0 else charIndex (lines.getD mapStart []) markup + 2
    let firstLine := (lines.getD mapStart []).drop contentIndent
    let idRest := split_id_from_line firstLine
    let nodeIdG : NodeId × Nat :=
      match idRest.1 with
      | some i => (i, gensym)
      | none => (minted_node_id gensym, gensym + 1)
    let contentEnd :=
      match subLists with
      | .nil => itemEnd
      | .cons l _ => l.mapStart
    let content_lines := idRest.2 ::
      (((lines.drop (mapStart + 1)).take (contentEnd - (mapStart + 1))).map
        (removeIndent contentIndent))
    match process_lists_go lines subLists itemEnd NTree.empty [] [] nodeIdG.2 with
    | .error e => .error e
    | .ok lo =>
      let sub_list_tree := NTree.union lo.tree ext
      match raise_if_duplicate_sibling nodeIdG.1 (mapStart, itemEnd) tree ranges with
      | .error e => .error e
      | .ok ranges2 =>
        let ec := if isRoot then (true, true) else expand_consider_sub_list_tree markup
        let tree2 := tree.insert nodeIdG.1
          (if ec.1 then (if sub_list_tree.isEmpty then none else some sub_list_tree)
           else none)
        .ok ⟨tree2, ranges2, sub_list_tree,
          lo.calls ++ [⟨nodeIdG.1, content_lines,
            if ec.2 then some sub_list_tree.keys else none⟩],
          lo.gensym⟩

/-- Loop of `_process_list_item_asts` (buffer.py:65-93) over the sub-lists
of one parent, into a single sibling tree: unordered lists share the
accumulating tree and duplicate-range context, ordered lists are chained in
reverse and their single chain head folded in. -/
def process_lists_go (lines : List Line) (ls : MdLists) (parentEnd : Nat)
    (slt : NTree) (ranges : Ranges) (calls : List Call) (gensym : Nat) :
    Except DupErr TreeOut :=
  match ls with
  | .nil => .ok ⟨slt, calls, gensym⟩
  | .cons l rest =>
    let listEnd :=
      match rest with
      | .nil => parentEnd
      | .cons l2 _ => l2.mapStart
    match l with
    | .mk ordered _ items =>
      if ordered then
        match process_ordered_items lines items listEnd gensym with
        | .error e => .error e
        | .ok co =>
          -- Python asserts `len(last_tree) == 1` here; it holds for the
          -- nonempty item lists the markdown parser produces.
          process_lists_go lines rest parentEnd (NTree.union slt co.last) ranges
            (calls ++ co.calls) co.gensym
      else
        match process_unordered_items lines items listEnd slt ranges gensym with
        | .error e => .error e
        | .ok uo =>
          process_lists_go lines rest parentEnd uo.tree uo.ranges
            (calls ++ uo.calls) uo.gensym

/-- Items of one unordered list: each processed into the shared level tree,
with an empty extension. -/
def process_unordered_items (lines : List Line) (items : MdItems) (listEnd : Nat)
    (tree : NTree) (ranges : Ranges) (gensym : Nat) : Except DupErr LevelOut :=
  match items with
  | .nil => .ok ⟨tree, ranges, [], gensym⟩
  | .cons i rest =>
    let itemEnd :=
      match rest with
      | .nil => listEnd
      | .cons i2 _ => i2.mapStart
    match process_list_item_ast lines false i itemEnd tree ranges NTree.empty gensym with
    | .error e => .error e
    | .ok io =>
      match process_unordered_items lines rest listEnd io.tree io.ranges io.gensym with
      | .error e => .error e
      | .ok lo => .ok ⟨lo.tree, lo.ranges, io.calls ++ lo.calls, lo.gensym⟩

/-- Items of one ordered list, processed in reverse line order (buffer.py:
76, 81-89): the later items are processed first, each item receives the
chain built so far as its extension and becomes the new single-entry chain;
each item is processed into a fresh context. -/
def process_ordered_items (lines : List Line) (items : MdItems) (listEnd : Nat)
    (gensym : Nat) : Except DupErr ChainOut :=
  match items with
  | .nil => .ok ⟨NTree.empty, [], gensym⟩
  | .cons i rest =>
    let itemEnd :=
      match rest with
      | .nil => listEnd
      | .cons i2 _ => i2.mapStart
    match process_ordered_items lines rest listEnd gensym with
    | .error e => .error e
    | .ok co =>
      match process_list_item_ast lines false i itemEnd NTree.empty [] co.last co.gensym with
      | .error e => .error e
      | .ok io => .ok ⟨io.tree, co.calls ++ io.calls, io.gensym⟩
end

/-- `_process_list_item_asts` (buffer.py:65-93): fold every sub-list of one
parent item into that parent's single sibling tree. -/
def process_list_item_asts (lines : List Line) (ls : MdLists) (parentEnd : Nat)
    (gensym : Nat) : Except DupErr TreeOut :=
  process_lists_go lines ls parentEnd NTree.empty [] [] gensym

/-- The root-marker prepend of `process_lines` (buffer.py:23): the first
buffer line gains the `[](q://<root-id>)  ` marker.  On an empty buffer
Python's `self._lines[0]` would raise; editors always hand at least one
line. -/
def prepLines (lines0 : List Line) (root_id : NodeId) : List Line :=
  match lines0 with
  | [] => [mkMarker root_id]
  | l0 :: rest => (mkMarker root_id ++ l0) :: rest

/-- `process_lines` (buffer.py:19-32): prepend the root marker to the first
line, walk the syntax tree of the marked buffer (`rootAst`, with `rootEnd`
its `map[1]`), diff every reconciled node against the ledger, and pop the
root entry as the returned `View`. -/
def process_lines (ledger : Ledger) (lines0 : List Line) (root_id : NodeId)
    (rootAst : MdItem) (rootEnd : Nat) (gensym : Nat) :
    Except DupErr ((NodeId × Option NTree) × ProcessState × Nat) :=
  match process_list_item_ast (prepLines lines0 root_id) true rootAst rootEnd
      NTree.empty [] NTree.empty gensym with
  | .error e => .error e
  | .ok io =>
    .ok ((io.tree.entries.getLastD (root_id, none)),
      apply_calls ledger io.calls ⟨[], []⟩, io.gensym)

/-- Committing a `ProcessState` into the ledger, as C2's premise describes
it: every staged node's content lines and children ids become the staged
values (a node staged in only one map keeps its other component). -/
def commit (st : ProcessState) (L : Ledger) : Ledger := fun i =>
  match dlookup st.changed_content_map i, dlookup st.changed_children_map i with
  | none, none => L i
  | c?, s? =>
    some ⟨c?.getD (((L i).map LedgerEntry.content_lines).getD []),
      s?.getD (((L i).map LedgerEntry.children_ids).getD [])⟩

/-- The empty ledger (no node has ever been synced). -/
def emptyLedger : Ledger := fun _ => none

/-- A ledger with a single baseline entry for `sampleUuidA`. -/
def emptyLedgerWithA : Ledger := fun i =>
  if i = sampleUuidA then some ⟨["old".toList], []⟩ else none

theorem dlookup_dput_other {α β : Type} [DecidableEq α] (m : List (α × β)) (k j : α)
    (v : β) (h : k ≠ j) : dlookup (dput m k v) j = dlookup m j := by
  induction m with
  | nil => simp [dput, dlookup, h]
  | cons p t ih =>
    by_cases hk : p.1 = k
    · have hj : p.1 ≠ j := hk ▸ h
      simp [dput, hk, dlookup, h, hj]
    · by_cases hj : p.1 = j
      · simp [dput, hk, dlookup, hj, Ne.symm h]
      · simp [dput, hk, dlookup, hj, ih]

/-- **C6.** Clone content merge (`_process_node`, buffer.py:107-113): when
the same NodeId is reconciled a second time in one pass with content that
differs from the ledger baseline and content already staged for it, the
staged content is replaced by the conflict-merge of the two candidate
versions, newly-seen content first, previously-staged content second; the
reconciliation itself completes normally (the clone is not rejected — the
duplicate check lives at the sibling level, not here). -/
theorem process_node_clone_conflict (ledger : Ledger) (st : ProcessState) (c : Call)
    (e : LedgerEntry) (staged : List Line)
    (hl : ledger c.id = some e)
    (hne : c.content ≠ e.content_lines)
    (hstaged : dlookup st.changed_content_map c.id = some staged) :
    dlookup (process_node ledger st c).changed_content_map c.id
      = some (conflict c.content staged true) := by
  unfold process_node
  simp only [hl, ne_eq, hne, not_false_iff, if_true, hstaged, if_pos]
  cases hch : c.childrenOpt with
  | none =>
    simp only [dlookup_dput_self]
  | some s =>
    by_cases hsd : symmDiffNonempty s e.children_ids = true
    · simp only [hsd, if_true]
      cases hlk : dlookup (dput st.changed_content_map c.id
          (conflict c.content staged true)) c.id with
      | none => simp [dlookup_dput_self] at hlk
      | some _ =>
        cases dlookup st.changed_children_map c.id with
        | none => simp only [dlookup_dput_self]
        | some staged2 => simp only [dlookup_dput_self]
    · simp only [Bool.not_eq_true] at hsd
      simp only [hsd, Bool.false_eq_true, if_false]
      simp only [dlookup_dput_self]

theorem splitAtChar_marker (c : Char) (id rest : List Char) (h : c ∉ id) :
    splitAtChar c (id ++ c :: rest) = some (id, rest) := by
  induction id with
  | nil => simp [splitAtChar]
  | cons x xs ih =>
    have hx : x ≠ c := fun he => h (he ▸ List.mem_cons_self x xs)
    have hxs : c ∉ xs := fun hm => h (List.mem_cons_of_mem x hm)
    simp [splitAtChar, hx, ih hxs]

theorem split_id_from_line_marker (id : NodeId) (text : Line) (h : ')' ∉ id) :
    split_id_from_line (mkMarker id ++ text) = (some id, text) := by
  have hpre : "[](q://".toList.isPrefixOf (mkMarker id ++ text) = true := by
    apply List.isPrefixOf_iff_prefix.mpr
    refine ⟨bufferNodeId id ++ ")  ".toList ++ text, ?_⟩
    simp [mkMarker, List.append_assoc]
  have hdrop : (mkMarker id ++ text).drop 7 = id ++ ')' :: (' ' :: ' ' :: text) := by
    simp [mkMarker, bufferNodeId]
  rw [split_id_from_line, if_pos hpre, hdrop, splitAtChar_marker ')' id _ h]
  simp

theorem charIndex_cons_self (c : Char) (l : List Char) : charIndex (c :: l) c = 0 := by
  simp [charIndex, List.findIdx_cons]

theorem charIndex_cons_ne (d c : Char) (l : List Char) (h : d ≠ c) :
    charIndex (d :: l) c = charIndex l c + 1 := by
  simp [charIndex, List.findIdx_cons, h]

/-- Processing of one marked leaf list item (no sub-lists): the id marker at
content indent `k + 2` resolves, no fresh id is minted, the sub-list tree is
the incoming extension, the item's range is recorded and the tree entry and
reconciliation call follow the bullet decision. -/
theorem process_leaf_marked (lines : List Line) (markup : Char)
    (mapStart itemEnd k : Nat) (tree : NTree) (ranges : Ranges) (ext : NTree)
    (g : Nat) (node_id : NodeId) (text : Line)
    (hfind : charIndex (lines.getD mapStart []) markup = k)
    (hdrop : (lines.getD mapStart []).drop (k + 2) = mkMarker node_id ++ text)
    (hid : ')' ∉ node_id)
    (hdup : node_id ∉ tree.keys) :
    process_list_item_ast lines false (.mk markup mapStart .nil) itemEnd tree ranges
        ext g
      = .ok ⟨tree.insert node_id
          (if (expand_consider_sub_list_tree markup).1 then
            (if (NTree.union NTree.empty ext).isEmpty then none
             else some (NTree.union NTree.empty ext))
           else none),
        dput ranges node_id (((dlookup ranges node_id).getD [])
          ++ [(mapStart, itemEnd)]),
        NTree.union NTree.empty ext,
        [⟨node_id,
          text :: (((lines.drop (mapStart + 1)).take (itemEnd - (mapStart + 1))).map
            (removeIndent (k + 2))),
          if (expand_consider_sub_list_tree markup).2 then
            some (NTree.union NTree.empty ext).keys else none⟩],
        g⟩ := by
  unfold process_list_item_ast
  simp only [Bool.false_eq_true, if_false, hfind, hdrop,
    split_id_from_line_marker node_id text hid, process_lists_go]
  rw [raise_if_duplicate_sibling, if_neg (by simpa using hdup)]
  rfl

/-- Processing of one marked leaf list item whose id already keys the level
tree: the duplicate-sibling check raises with the id and the recorded ranges
plus this occurrence's range. -/
theorem process_leaf_marked_dup (lines : List Line) (markup : Char)
    (mapStart itemEnd k : Nat) (tree : NTree) (ranges : Ranges) (ext : NTree)
    (g : Nat) (node_id : NodeId) (text : Line)
    (hfind : charIndex (lines.getD mapStart []) markup = k)
    (hdrop : (lines.getD mapStart []).drop (k + 2) = mkMarker node_id ++ text)
    (hid : ')' ∉ node_id)
    (hdup : node_id ∈ tree.keys) :
    process_list_item_ast lines false (.mk markup mapStart .nil) itemEnd tree ranges
        ext g
      = .error (.dup node_id (((dlookup ranges node_id).getD [])
          ++ [(mapStart, itemEnd)])) := by
  unfold process_list_item_ast
  simp only [Bool.false_eq_true, if_false, hfind, hdrop,
    split_id_from_line_marker node_id text hid, process_lists_go]
  rw [raise_if_duplicate_sibling, if_pos (by simpa using hdup)]

/-- **C10.** An item that is to be expanded but whose assembled sub-list
tree is empty (here: no sub-lists and no ordered-chain extension) gets the
"no value" collapsed marker as its Tree entry (buffer.py:61,
`(sub_list_tree or None) if expand else None`): the stored entry is `none`
for every bullet, so an expanded node with zero children is
indistinguishable in the resulting view from a collapsed one. -/
theorem expanded_empty_subtree_stored_collapsed (lines : List Line) (markup : Char)
    (mapStart itemEnd : Nat) (tree : NTree) (ranges : Ranges) (g : Nat)
    (node_id : NodeId) (text : Line)
    (hline : lines.getD mapStart [] = markup :: ' ' :: (mkMarker node_id ++ text))
    (hid : ')' ∉ node_id)
    (hdup : node_id ∉ tree.keys) :
    ∃ out, process_list_item_ast lines false (.mk markup mapStart .nil) itemEnd tree
        ranges NTree.empty g = .ok out
      ∧ out.tree = tree.insert node_id none := by
  have hfind : charIndex (lines.getD mapStart []) markup = 0 := by
    rw [hline]; exact charIndex_cons_self markup _
  have hdrop : (lines.getD mapStart []).drop (0 + 2) = mkMarker node_id ++ text := by
    rw [hline]
    rfl
  refine ⟨_, process_leaf_marked lines markup mapStart itemEnd 0 tree ranges
    NTree.empty g node_id text hfind hdrop hid hdup, ?_⟩
  show tree.insert node_id
      (if (expand_consider_sub_list_tree markup).1 then
        (if (NTree.union NTree.empty NTree.empty).isEmpty then none
         else some (NTree.union NTree.empty NTree.empty))
       else none) = tree.insert node_id none
  have hem : (NTree.union NTree.empty NTree.empty).isEmpty = true := rfl
  rw [hem]
  simp only [if_true, ite_self]

/-- Witness for `expanded_empty_subtree_stored_collapsed` at a concrete
expanded-bullet item with no children. -/
theorem expanded_empty_subtree_stored_collapsed_witness :
    (process_list_item_ast ["- [](q://aa)  x".toList] false (.mk '-' 0 .nil) 1
        NTree.empty [] NTree.empty 0).map ItemOut.tree
      = .ok (NTree.empty.insert "aa".toList none) := by
  obtain ⟨out, h1, h2⟩ := expanded_empty_subtree_stored_collapsed
    ["- [](q://aa)  x".toList] '-' 0 1 NTree.empty [] 0 "aa".toList "x".toList
    (by decide) (by decide) (by simp [NTree.keys, NTree.empty, NTree.entries])
  rw [h1, Except.map, h2]

/-- **C4.** Ordered-list chaining (buffer.py:65-93): a buffer whose root
holds one ordered list of three marked single-line items produces a Tree in
which item 1 is the root's sole child, item 2 is item 1's sole descendant
entry and item 3 is item 2's sole descendant entry — a single linear chain,
never three siblings. -/
theorem ordered_list_chain (L : Ledger) (a b c root_id : NodeId)
    (x y z r : Line) (g : Nat)
    (ha : ')' ∉ a) (hb : ')' ∉ b) (hc : ')' ∉ c) (hr : ')' ∉ root_id) :
    ∃ st g2,
      process_lines L
        [r,
          '1' :: '.' :: ' ' :: (mkMarker a ++ x),
          '2' :: '.' :: ' ' :: (mkMarker b ++ y),
          '3' :: '.' :: ' ' :: (mkMarker c ++ z)]
        root_id
        (.mk '-' 0 (.cons (.mk true 1
          (.cons (.mk '.' 1 .nil)
            (.cons (.mk '.' 2 .nil) (.cons (.mk '.' 3 .nil) .nil)))) .nil))
        4 g
      = .ok ((root_id,
          some (NTree.mk [(a, some (NTree.mk [(b, some (NTree.mk [(c, none)]))]))])),
        st, g2) := by
  set LINES : List Line := prepLines
    [r,
      '1' :: '.' :: ' ' :: (mkMarker a ++ x),
      '2' :: '.' :: ' ' :: (mkMarker b ++ y),
      '3' :: '.' :: ' ' :: (mkMarker c ++ z)] root_id with hLINES
  have hL : LINES =
      [mkMarker root_id ++ r,
        '1' :: '.' :: ' ' :: (mkMarker a ++ x),
        '2' :: '.' :: ' ' :: (mkMarker b ++ y),
        '3' :: '.' :: ' ' :: (mkMarker c ++ z)] := rfl
  have hf3 : charIndex (LINES.getD 3 []) '.' = 1 := by
    rw [hL]
    show charIndex ('3' :: '.' :: ' ' :: (mkMarker c ++ z)) '.' = 1
    rw [charIndex_cons_ne _ _ _ (by decide), charIndex_cons_self]
  have h3c : process_list_item_ast LINES false (.mk '.' 3 .nil) 4 NTree.empty []
      NTree.empty g
      = .ok ⟨NTree.mk [(c, none)], [(c, [(3, 4)])], NTree.mk [],
          [⟨c, [z], some []⟩], g⟩ := by
    rw [process_leaf_marked LINES '.' 3 4 1 NTree.empty [] NTree.empty g c z hf3
      (by rw [hL]; rfl) hc (by simp [NTree.keys, NTree.empty, NTree.entries])]
    rfl
  have e3 : process_ordered_items LINES (.cons (.mk '.' 3 .nil) .nil) 4 g
      = .ok ⟨NTree.mk [(c, none)], [⟨c, [z], some []⟩], g⟩ := by
    simp only [process_ordered_items, MdItem.mapStart, MdList.mapStart, h3c]
    rfl
  have hf2 : charIndex (LINES.getD 2 []) '.' = 1 := by
    rw [hL]
    show charIndex ('2' :: '.' :: ' ' :: (mkMarker b ++ y)) '.' = 1
    rw [charIndex_cons_ne _ _ _ (by decide), charIndex_cons_self]
  have h2c : process_list_item_ast LINES false (.mk '.' 2 .nil) 3 NTree.empty []
      (NTree.mk [(c, none)]) g
      = .ok ⟨NTree.mk [(b, some (NTree.mk [(c, none)]))], [(b, [(2, 3)])],
          NTree.mk [(c, none)], [⟨b, [y], some [c]⟩], g⟩ := by
    rw [process_leaf_marked LINES '.' 2 3 1 NTree.empty [] (NTree.mk [(c, none)]) g
      b y hf2 (by rw [hL]; rfl) hb (by simp [NTree.keys, NTree.empty, NTree.entries])]
    rfl
  have e2 : process_ordered_items LINES
      (.cons (.mk '.' 2 .nil) (.cons (.mk '.' 3 .nil) .nil)) 4 g
      = .ok ⟨NTree.mk [(b, some (NTree.mk [(c, none)]))],
          [⟨c, [z], some []⟩, ⟨b, [y], some [c]⟩], g⟩ := by
    simp only [process_ordered_items, MdItem.mapStart, MdList.mapStart, h3c, h2c]
    rfl
  have hf1 : charIndex (LINES.getD 1 []) '.' = 1 := by
    rw [hL]
    show charIndex ('1' :: '.' :: ' ' :: (mkMarker a ++ x)) '.' = 1
    rw [charIndex_cons_ne _ _ _ (by decide), charIndex_cons_self]
  have h1c : process_list_item_ast LINES false (.mk '.' 1 .nil) 2 NTree.empty []
      (NTree.mk [(b, some (NTree.mk [(c, none)]))]) g
      = .ok ⟨NTree.mk [(a, some (NTree.mk [(b, some (NTree.mk [(c, none)]))]))],
          [(a, [(1, 2)])], NTree.mk [(b, some (NTree.mk [(c, none)]))],
          [⟨a, [x], some [b]⟩], g⟩ := by
    rw [process_leaf_marked LINES '.' 1 2 1 NTree.empty []
      (NTree.mk [(b, some (NTree.mk [(c, none)]))]) g a x hf1 (by rw [hL]; rfl) ha
      (by simp [NTree.keys, NTree.empty, NTree.entries])]
    rfl
  have e1 : process_ordered_items LINES
      (.cons (.mk '.' 1 .nil)
        (.cons (.mk '.' 2 .nil) (.cons (.mk '.' 3 .nil) .nil))) 4 g
      = .ok ⟨NTree.mk [(a, some (NTree.mk [(b, some (NTree.mk [(c, none)]))]))],
          [⟨c, [z], some []⟩, ⟨b, [y], some [c]⟩, ⟨a, [x], some [b]⟩], g⟩ := by
    simp only [process_ordered_items, MdItem.mapStart, MdList.mapStart, h3c, h2c, h1c]
    rfl
  have eGo : process_lists_go LINES
      (.cons (.mk true 1
        (.cons (.mk '.' 1 .nil)
          (.cons (.mk '.' 2 .nil) (.cons (.mk '.' 3 .nil) .nil)))) .nil)
      4 NTree.empty [] [] g
      = .ok ⟨NTree.mk [(a, some (NTree.mk [(b, some (NTree.mk [(c, none)]))]))],
          [⟨c, [z], some []⟩, ⟨b, [y], some [c]⟩, ⟨a, [x], some [b]⟩], g⟩ := by
    simp only [process_lists_go, MdItem.mapStart, MdList.mapStart, e1, if_true]
    rfl
  have eroot : process_list_item_ast LINES true
      (.mk '-' 0 (.cons (.mk true 1
        (.cons (.mk '.' 1 .nil)
          (.cons (.mk '.' 2 .nil) (.cons (.mk '.' 3 .nil) .nil)))) .nil))
      4 NTree.empty [] NTree.empty g
      = .ok ⟨NTree.mk [(root_id,
            some (NTree.mk [(a, some (NTree.mk [(b, some (NTree.mk [(c, none)]))]))]))],
          [(root_id, [(0, 4)])],
          NTree.mk [(a, some (NTree.mk [(b, some (NTree.mk [(c, none)]))]))],
          [⟨c, [z], some []⟩, ⟨b, [y], some [c]⟩, ⟨a, [x], some [b]⟩,
            ⟨root_id, [r], some [a]⟩], g⟩ := by
    have hs : split_id_from_line ((LINES.getD 0 []).drop 0) = (some root_id, r) := by
      rw [show (LINES.getD 0 []).drop 0 = mkMarker root_id ++ r by rw [hL]; rfl]
      exact split_id_from_line_marker root_id r hr
    have hraise : raise_if_duplicate_sibling root_id (0, 4) NTree.empty []
        = .ok [(root_id, [(0, 4)])] := by
      rw [raise_if_duplicate_sibling,
        if_neg (by simp [NTree.keys, NTree.empty, NTree.entries])]
      rfl
    simp only [process_list_item_ast, MdItem.mapStart, MdList.mapStart, ite_true]
    simp only [hs, eGo, hraise]
    rfl
  refine ⟨apply_calls L [⟨c, [z], some []⟩, ⟨b, [y], some [c]⟩, ⟨a, [x], some [b]⟩,
    ⟨root_id, [r], some [a]⟩] ⟨[], []⟩, g, ?_⟩
  simp only [process_lines, eroot]
  rfl

/-- Witness for `ordered_list_chain` at concrete ids and contents. -/
theorem ordered_list_chain_witness :
    (process_lines emptyLedger
        ["r".toList,
          '1' :: '.' :: ' ' :: (mkMarker "aa".toList ++ "x".toList),
          '2' :: '.' :: ' ' :: (mkMarker "bb".toList ++ "y".toList),
          '3' :: '.' :: ' ' :: (mkMarker "cc".toList ++ "z".toList)]
        "rt".toList
        (.mk '-' 0 (.cons (.mk true 1
          (.cons (.mk '.' 1 .nil)
            (.cons (.mk '.' 2 .nil) (.cons (.mk '.' 3 .nil) .nil)))) .nil))
        4 0).map Prod.fst
      = .ok ("rt".toList,
          some (NTree.mk [("aa".toList,
            some (NTree.mk [("bb".toList,
              some (NTree.mk [("cc".toList, none)]))]))])) := by
  obtain ⟨st, g2, h⟩ := ordered_list_chain emptyLedger "aa".toList "bb".toList
    "cc".toList "rt".toList "x".toList "y".toList "z".toList "r".toList 0
    (by decide) (by decide) (by decide) (by decide)
  rw [h]
  rfl

/-- `Except` success check. -/
def exceptOk {ε α : Type} : Except ε α → Bool
  | .ok _ => true
  | .error _ => false

/-- **C5 (amended).** Duplicate-sibling detection (buffer.py:56,
`raise_if_duplicate_sibling`): two *unordered-list* items at the same level
carrying the same embedded NodeId marker make `process_lines` raise
`DuplicateNode` with that id and the line ranges of both occurrences, while
the same id at non-sibling positions — here a nested clone of its parent
item — parses without raising.  (Same-id items of an *ordered* list are not
siblings in the assembled tree — they are chained — and do not raise; see
the counterexample.) -/
theorem duplicate_sibling_detection (L : Ledger) (a root_id : NodeId)
    (x y r : Line) (g : Nat) (ha : ')' ∉ a) (hr : ')' ∉ root_id) :
    process_lines L
        [r, '-' :: ' ' :: (mkMarker a ++ x), '-' :: ' ' :: (mkMarker a ++ y)]
        root_id
        (.mk '-' 0 (.cons (.mk false 1
          (.cons (.mk '-' 1 .nil) (.cons (.mk '-' 2 .nil) .nil))) .nil)) 3 g
      = .error (.dup a [(1, 2), (2, 3)])
    ∧ ∃ out, process_lines L
        [r, '-' :: ' ' :: (mkMarker a ++ x),
          ' ' :: ' ' :: ' ' :: ' ' :: '-' :: ' ' :: (mkMarker a ++ y)]
        root_id
        (.mk '-' 0 (.cons (.mk false 1
          (.cons (.mk '-' 1
            (.cons (.mk false 2 (.cons (.mk '-' 2 .nil) .nil)) .nil)) .nil)) .nil))
        3 g
      = .ok out := by
  constructor
  · set LINES : List Line := prepLines
      [r, '-' :: ' ' :: (mkMarker a ++ x), '-' :: ' ' :: (mkMarker a ++ y)] root_id
      with hLINES
    have hL : LINES = [mkMarker root_id ++ r, '-' :: ' ' :: (mkMarker a ++ x),
        '-' :: ' ' :: (mkMarker a ++ y)] := rfl
    have h1c : process_list_item_ast LINES false (.mk '-' 1 .nil) 2 NTree.empty []
        NTree.empty g
        = .ok ⟨NTree.mk [(a, none)], [(a, [(1, 2)])], NTree.mk [],
            [⟨a, [x], some []⟩], g⟩ := by
      rw [process_leaf_marked LINES '-' 1 2 0 NTree.empty [] NTree.empty g a x
        (by rw [hL]; rfl) (by rw [hL]; rfl) ha
        (by simp [NTree.keys, NTree.empty, NTree.entries])]
      rfl
    have h2e : process_list_item_ast LINES false (.mk '-' 2 .nil) 3
        (NTree.mk [(a, none)]) [(a, [(1, 2)])] NTree.empty g
        = .error (.dup a [(1, 2), (2, 3)]) := by
      rw [process_leaf_marked_dup LINES '-' 2 3 0 (NTree.mk [(a, none)])
        [(a, [(1, 2)])] NTree.empty g a y (by rw [hL]; rfl) (by rw [hL]; rfl) ha
        (by simp [NTree.keys, NTree.entries])]
      simp [dlookup]
    have eU : process_unordered_items LINES
        (.cons (.mk '-' 1 .nil) (.cons (.mk '-' 2 .nil) .nil)) 3 NTree.empty [] g
        = .error (.dup a [(1, 2), (2, 3)]) := by
      simp only [process_unordered_items, MdItem.mapStart, h1c, h2e]
    have eGo : process_lists_go LINES
        (.cons (.mk false 1
          (.cons (.mk '-' 1 .nil) (.cons (.mk '-' 2 .nil) .nil))) .nil)
        3 NTree.empty [] [] g
        = .error (.dup a [(1, 2), (2, 3)]) := by
      simp only [process_lists_go, MdList.mapStart, Bool.false_eq_true, if_false, eU]
    have hsR : split_id_from_line ((LINES.getD 0 []).drop 0)
        = (some root_id, r) := by
      rw [show (LINES.getD 0 []).drop 0 = mkMarker root_id ++ r by rw [hL]; rfl]
      exact split_id_from_line_marker root_id r hr
    have eRootE : process_list_item_ast LINES true
        (.mk '-' 0 (.cons (.mk false 1
          (.cons (.mk '-' 1 .nil) (.cons (.mk '-' 2 .nil) .nil))) .nil))
        3 NTree.empty [] NTree.empty g
        = .error (.dup a [(1, 2), (2, 3)]) := by
      simp only [process_list_item_ast, MdItem.mapStart, MdList.mapStart, ite_true]
      simp only [hsR, eGo]
    simp only [process_lines, eRootE]
  · set LINES : List Line := prepLines
      [r, '-' :: ' ' :: (mkMarker a ++ x),
        ' ' :: ' ' :: ' ' :: ' ' :: '-' :: ' ' :: (mkMarker a ++ y)] root_id
      with hLINES
    have hL : LINES = [mkMarker root_id ++ r, '-' :: ' ' :: (mkMarker a ++ x),
        ' ' :: ' ' :: ' ' :: ' ' :: '-' :: ' ' :: (mkMarker a ++ y)] := rfl
    have h2c : process_list_item_ast LINES false (.mk '-' 2 .nil) 3 NTree.empty []
        NTree.empty g
        = .ok ⟨NTree.mk [(a, none)], [(a, [(2, 3)])], NTree.mk [],
            [⟨a, [y], some []⟩], g⟩ := by
      rw [process_leaf_marked LINES '-' 2 3 4 NTree.empty [] NTree.empty g a y
        (by rw [hL]; rfl) (by rw [hL]; rfl) ha
        (by simp [NTree.keys, NTree.empty, NTree.entries])]
      rfl
    have eInner : process_unordered_items LINES (.cons (.mk '-' 2 .nil) .nil) 3
        NTree.empty [] g
        = .ok ⟨NTree.mk [(a, none)], [(a, [(2, 3)])], [⟨a, [y], some []⟩], g⟩ := by
      simp only [process_unordered_items, MdItem.mapStart, h2c]
      rfl
    have eInnerGo : process_lists_go LINES
        (.cons (.mk false 2 (.cons (.mk '-' 2 .nil) .nil)) .nil) 3
        NTree.empty [] [] g
        = .ok ⟨NTree.mk [(a, none)], [⟨a, [y], some []⟩], g⟩ := by
      simp only [process_lists_go, MdList.mapStart, Bool.false_eq_true, if_false,
        eInner]
      rfl
    have hs1 : split_id_from_line
        ((LINES.getD 1 []).drop (charIndex (LINES.getD 1 []) '-' + 2))
        = (some a, x) := by
      rw [show (LINES.getD 1 []).drop (charIndex (LINES.getD 1 []) '-' + 2)
          = mkMarker a ++ x by rw [hL]; rfl]
      exact split_id_from_line_marker a x ha
    have hraise1 : raise_if_duplicate_sibling a (1, 3) NTree.empty []
        = .ok [(a, [(1, 3)])] := by
      rw [raise_if_duplicate_sibling,
        if_neg (by simp [NTree.keys, NTree.empty, NTree.entries])]
      rfl
    have eItem1 : process_list_item_ast LINES false
        (.mk '-' 1 (.cons (.mk false 2 (.cons (.mk '-' 2 .nil) .nil)) .nil)) 3
        NTree.empty [] NTree.empty g
        = .ok ⟨NTree.mk [(a, some (NTree.mk [(a, none)]))], [(a, [(1, 3)])],
            NTree.mk [(a, none)], [⟨a, [y], some []⟩, ⟨a, [x], some [a]⟩], g⟩ := by
      simp only [process_list_item_ast, MdItem.mapStart, MdList.mapStart,
        Bool.false_eq_true, if_false]
      simp only [hs1, eInnerGo, hraise1]
      rfl
    have eOuter : process_unordered_items LINES
        (.cons (.mk '-' 1
          (.cons (.mk false 2 (.cons (.mk '-' 2 .nil) .nil)) .nil)) .nil) 3
        NTree.empty [] g
        = .ok ⟨NTree.mk [(a, some (NTree.mk [(a, none)]))], [(a, [(1, 3)])],
            [⟨a, [y], some []⟩, ⟨a, [x], some [a]⟩], g⟩ := by
      simp only [process_unordered_items, MdItem.mapStart, eItem1]
      rfl
    have eOuterGo : process_lists_go LINES
        (.cons (.mk false 1
          (.cons (.mk '-' 1
            (.cons (.mk false 2 (.cons (.mk '-' 2 .nil) .nil)) .nil)) .nil)) .nil)
        3 NTree.empty [] [] g
        = .ok ⟨NTree.mk [(a, some (NTree.mk [(a, none)]))],
            [⟨a, [y], some []⟩, ⟨a, [x], some [a]⟩], g⟩ := by
      simp only [process_lists_go, MdList.mapStart, Bool.false_eq_true, if_false,
        eOuter]
      rfl
    have hsR : split_id_from_line ((LINES.getD 0 []).drop 0)
        = (some root_id, r) := by
      rw [show (LINES.getD 0 []).drop 0 = mkMarker root_id ++ r by rw [hL]; rfl]
      exact split_id_from_line_marker root_id r hr
    have hraiseR : raise_if_duplicate_sibling root_id (0, 3) NTree.empty []
        = .ok [(root_id, [(0, 3)])] := by
      rw [raise_if_duplicate_sibling,
        if_neg (by simp [NTree.keys, NTree.empty, NTree.entries])]
      rfl
    have eRoot : process_list_item_ast LINES true
        (.mk '-' 0 (.cons (.mk false 1
          (.cons (.mk '-' 1
            (.cons (.mk false 2 (.cons (.mk '-' 2 .nil) .nil)) .nil)) .nil)) .nil))
        3 NTree.empty [] NTree.empty g
        = .ok ⟨NTree.mk [(root_id,
              some (NTree.mk [(a, some (NTree.mk [(a, none)]))]))],
            [(root_id, [(0, 3)])], NTree.mk [(a, some (NTree.mk [(a, none)]))],
            [⟨a, [y], some []⟩, ⟨a, [x], some [a]⟩, ⟨root_id, [r], some [a]⟩],
            g⟩ := by
      simp only [process_list_item_ast, MdItem.mapStart, MdList.mapStart, ite_true]
      simp only [hsR, eOuterGo, hraiseR]
      rfl
    refine ⟨((root_id, some (NTree.mk [(a, some (NTree.mk [(a, none)]))])),
      apply_calls L [⟨a, [y], some []⟩, ⟨a, [x], some [a]⟩, ⟨root_id, [r], some [a]⟩]
        ⟨[], []⟩, g), ?_⟩
    simp only [process_lines, eRoot]
    rfl

/-- Counterexample to C5 as stated: two list items that occur as direct
siblings of the same ordered list, both carrying the same embedded id
marker, parse without raising (they are chained into a parent/child pair
instead). -/
theorem ordered_duplicate_markers_do_not_raise :
    exceptOk (process_lines emptyLedger
        ["r".toList,
          '1' :: '.' :: ' ' :: (mkMarker "aa".toList ++ "x".toList),
          '2' :: '.' :: ' ' :: (mkMarker "aa".toList ++ "y".toList)]
        "rt".toList
        (.mk '-' 0 (.cons (.mk true 1
          (.cons (.mk '.' 1 .nil) (.cons (.mk '.' 2 .nil) .nil))) .nil)) 3 0)
      = true := rfl

/-- Witness for `duplicate_sibling_detection` at concrete ids. -/
theorem duplicate_sibling_detection_witness :
    process_lines emptyLedger
        ["r".toList, '-' :: ' ' :: (mkMarker "aa".toList ++ "x".toList),
          '-' :: ' ' :: (mkMarker "aa".toList ++ "y".toList)]
        "rt".toList
        (.mk '-' 0 (.cons (.mk false 1
          (.cons (.mk '-' 1 .nil) (.cons (.mk '-' 2 .nil) .nil))) .nil)) 3 0
      = .error (.dup "aa".toList [(1, 2), (2, 3)])
    ∧ exceptOk (process_lines emptyLedger
        ["r".toList, '-' :: ' ' :: (mkMarker "aa".toList ++ "x".toList),
          ' ' :: ' ' :: ' ' :: ' ' :: '-' :: ' ' ::
            (mkMarker "aa".toList ++ "y".toList)]
        "rt".toList
        (.mk '-' 0 (.cons (.mk false 1
          (.cons (.mk '-' 1
            (.cons (.mk false 2 (.cons (.mk '-' 2 .nil) .nil)) .nil)) .nil)) .nil))
        3 0) = true := by
  obtain ⟨h1, out, h2⟩ := duplicate_sibling_detection emptyLedger "aa".toList
    "rt".toList "x".toList "y".toList "r".toList 0 (by decide) (by decide)
  exact ⟨h1, by rw [h2]; rfl⟩

theorem process_node_clone_conflict_witness :
    emptyLedgerWithA sampleUuidA = some ⟨["old".toList], []⟩
    ∧ dlookup (process_node emptyLedgerWithA
        ⟨[(sampleUuidA, ["first".toList])], []⟩
        ⟨sampleUuidA, ["second".toList], none⟩).changed_content_map sampleUuidA
      = some (conflict ["second".toList] ["first".toList] true) :=
  ⟨rfl, process_node_clone_conflict emptyLedgerWithA
    ⟨[(sampleUuidA, ["first".toList])], []⟩
    ⟨sampleUuidA, ["second".toList], none⟩
    ⟨["old".toList], []⟩ ["first".toList] rfl (by decide) rfl⟩

/-! ### Re-parsing after committing a parse's diff -/

/-- The content value `_process_node` stages for a call when nothing is
staged yet for its id: the call's content for a node the ledger does not
know, and only a differing content for a known one (buffer.py:99-106). -/
def contentStage (L : Ledger) (c : Call) : Option (List Line) :=
  match L c.id with
  | none => some c.content
  | some e => if c.content = e.content_lines then none else some c.content

/-- The children value `_process_node` stages for a call when nothing is
staged yet for its id (buffer.py:114-120). -/
def childStage (L : Ledger) (c : Call) : Option (List NodeId) :=
  match c.childrenOpt with
  | none => none
  | some s =>
    match L c.id with
    | none => some s
    | some e => if symmDiffNonempty s e.children_ids then some s else none

theorem symmDiffNonempty_self (s : List NodeId) : symmDiffNonempty s s = false := by
  simp [symmDiffNonempty]

theorem process_node_frame_at (L : Ledger) (st : ProcessState) (c : Call)
    (j : NodeId) (h : j ≠ c.id) :
    dlookup (process_node L st c).changed_content_map j
        = dlookup st.changed_content_map j
    ∧ dlookup (process_node L st c).changed_children_map j
        = dlookup st.changed_children_map j := by
  have hd : c.id ≠ j := Ne.symm h
  unfold process_node
  repeat' split
  all_goals cases hst2 : dlookup st.changed_children_map c.id
  all_goals simp [hst2, dlookup_dput_other _ _ _ _ hd]

theorem process_node_stage_at (L : Ledger) (st : ProcessState) (c : Call)
    (h1 : dlookup st.changed_content_map c.id = none)
    (h2 : dlookup st.changed_children_map c.id = none) :
    dlookup (process_node L st c).changed_content_map c.id = contentStage L c
    ∧ dlookup (process_node L st c).changed_children_map c.id = childStage L c := by
  unfold process_node
  repeat' split
  all_goals cases hst2 : dlookup st.changed_children_map c.id
  all_goals simp_all [contentStage, childStage, dlookup_dput_self]

theorem apply_calls_frame (L : Ledger) :
    ∀ (calls : List Call) (st : ProcessState) (j : NodeId),
      j ∉ calls.map Call.id →
      dlookup (apply_calls L calls st).changed_content_map j
          = dlookup st.changed_content_map j
      ∧ dlookup (apply_calls L calls st).changed_children_map j
          = dlookup st.changed_children_map j := by
  intro calls
  induction calls with
  | nil => exact fun st j _ => ⟨rfl, rfl⟩
  | cons c rest ih =>
    intro st j h
    simp only [List.map_cons, List.mem_cons, not_or] at h
    have hstep := process_node_frame_at L st c j h.1
    have hrest := ih (process_node L st c) j h.2
    exact ⟨hrest.1.trans hstep.1, hrest.2.trans hstep.2⟩

theorem apply_calls_stage (L : Ledger) (c : Call) :
    ∀ (calls : List Call) (st : ProcessState), c ∈ calls →
      (calls.map Call.id).Nodup →
      dlookup st.changed_content_map c.id = none →
      dlookup st.changed_children_map c.id = none →
      dlookup (apply_calls L calls st).changed_content_map c.id = contentStage L c
      ∧ dlookup (apply_calls L calls st).changed_children_map c.id
          = childStage L c := by
  intro calls
  induction calls with
  | nil => intro st hmem; cases hmem
  | cons d rest ih =>
    intro st hmem hnd h1 h2
    simp only [List.map_cons, List.nodup_cons] at hnd
    rcases List.mem_cons.mp hmem with he | hm
    · subst he
      have hstep := process_node_stage_at L st c h1 h2
      have hframe := apply_calls_frame L rest (process_node L st c) c.id hnd.1
      exact ⟨hframe.1.trans hstep.1, hframe.2.trans hstep.2⟩
    · have hne : c.id ≠ d.id :=
        fun h => hnd.1 (h ▸ List.mem_map_of_mem Call.id hm)
      have hf := process_node_frame_at L st d c.id hne
      exact ih (process_node L st d) hm hnd.2 (hf.1.trans h1) (hf.2.trans h2)

theorem process_node_noop (L : Ledger) (st : ProcessState) (c : Call)
    (e : LedgerEntry) (he : L c.id = some e) (hc : c.content = e.content_lines)
    (hs : ∀ s, c.childrenOpt = some s → symmDiffNonempty s e.children_ids = false) :
    process_node L st c = st := by
  unfold process_node
  simp only [he, ne_eq, hc, not_true_eq_false, if_false]
  cases hco : c.childrenOpt with
  | none => rfl
  | some s => simp only [hs s hco, Bool.false_eq_true, if_false]

theorem apply_calls_noop (L : Ledger) :
    ∀ (calls : List Call) (st : ProcessState),
      (∀ c ∈ calls, ∀ s : ProcessState, process_node L s c = s) →
      apply_calls L calls st = st := by
  intro calls
  induction calls with
  | nil => exact fun st _ => rfl
  | cons c rest ih =>
    intro st h
    show apply_calls L rest (process_node L st c) = st
    rw [h c (List.mem_cons_self c rest) st]
    exact ih st (fun d hd s => h d (List.mem_cons_of_mem c hd) s)

theorem commit_good_entry (L : Ledger) (calls : List Call) (c : Call)
    (hmem : c ∈ calls) (hnd : (calls.map Call.id).Nodup) :
    ∃ e, commit (apply_calls L calls ⟨[], []⟩) L c.id = some e
      ∧ c.content = e.content_lines
      ∧ ∀ s, c.childrenOpt = some s →
          symmDiffNonempty s e.children_ids = false := by
  obtain ⟨hcm, hch⟩ := apply_calls_stage L c calls ⟨[], []⟩ hmem hnd rfl rfl
  unfold commit
  rw [hcm, hch]
  cases hl : L c.id with
  | none =>
    have hcs : contentStage L c = some c.content := by simp [contentStage, hl]
    cases hco : c.childrenOpt with
    | none =>
      have hchs : childStage L c = none := by simp [childStage, hco]
      rw [hcs, hchs]
      refine ⟨⟨c.content, []⟩, by simp [hl], rfl, ?_⟩
      intro s hs
      cases hs
    | some s =>
      have hchs : childStage L c = some s := by simp [childStage, hco, hl]
      rw [hcs, hchs]
      refine ⟨⟨c.content, s⟩, by simp [hl], rfl, ?_⟩
      intro s2 hs2
      cases hs2
      exact symmDiffNonempty_self s
  | some e =>
    by_cases hc : c.content = e.content_lines
    · have hcs : contentStage L c = none := by simp [contentStage, hl, hc]
      cases hco : c.childrenOpt with
      | none =>
        have hchs : childStage L c = none := by simp [childStage, hco]
        rw [hcs, hchs]
        refine ⟨e, rfl, hc, ?_⟩
        intro s hs
        cases hs
      | some s =>
        by_cases hsd : symmDiffNonempty s e.children_ids = true
        · have hchs : childStage L c = some s := by
            simp [childStage, hco, hl, hsd]
          rw [hcs, hchs]
          refine ⟨⟨e.content_lines, s⟩, by simp [hl], hc, ?_⟩
          intro s2 hs2
          cases hs2
          exact symmDiffNonempty_self s
        · have hchs : childStage L c = none := by
            simp [childStage, hco, hl, hsd]
          rw [hcs, hchs]
          refine ⟨e, rfl, hc, ?_⟩
          intro s2 hs2
          cases hs2
          simpa using hsd
    · have hcs : contentStage L c = some c.content := by
        simp [contentStage, hl, hc]
      cases hco : c.childrenOpt with
      | none =>
        have hchs : childStage L c = none := by simp [childStage, hco]
        rw [hcs, hchs]
        refine ⟨⟨c.content, e.children_ids⟩, by simp [hl], rfl, ?_⟩
        intro s hs
        cases hs
      | some s =>
        by_cases hsd : symmDiffNonempty s e.children_ids = true
        · have hchs : childStage L c = some s := by
            simp [childStage, hco, hl, hsd]
          rw [hcs, hchs]
          refine ⟨⟨c.content, s⟩, by simp [hl], rfl, ?_⟩
          intro s2 hs2
          cases hs2
          exact symmDiffNonempty_self s
        · have hchs : childStage L c = none := by
            simp [childStage, hco, hl, hsd]
          rw [hcs, hchs]
          refine ⟨⟨c.content, e.children_ids⟩, by simp [hl], rfl, ?_⟩
          intro s2 hs2
          cases hs2
          simpa using hsd

/-- **C2 (amended).** Re-parse after commit (buffer.py:19-32, 95-120): when a
parse of buffer `lines0` rooted at `root_id` resolves an id for every item
from its embedded marker (the fresh-id supply comes back unchanged,
`io.gensym = g`) and the reconciled ids are pairwise distinct (no clones),
then committing the resulting `ProcessState` into the ledger and re-running
`process_lines` on the identical buffer yields the same view and an empty
`ProcessState`.  Without those two conditions the re-parse is not empty: a
marker-less item is re-minted under a fresh id (see the counterexample), and
a cloned id stages a conflict-merge. -/
theorem reparse_after_commit_empty (L : Ledger) (lines0 : List Line)
    (root_id : NodeId) (rootAst : MdItem) (rootEnd g : Nat) (io : ItemOut)
    (h1 : process_list_item_ast (prepLines lines0 root_id) true rootAst rootEnd
        NTree.empty [] NTree.empty g = .ok io)
    (hg : io.gensym = g)
    (hnd : (io.calls.map Call.id).Nodup) :
    process_lines L lines0 root_id rootAst rootEnd g
        = .ok (io.tree.entries.getLastD (root_id, none),
            apply_calls L io.calls ⟨[], []⟩, g)
    ∧ process_lines (commit (apply_calls L io.calls ⟨[], []⟩) L) lines0 root_id
        rootAst rootEnd g
        = .ok (io.tree.entries.getLastD (root_id, none), ⟨[], []⟩, g) := by
  constructor
  · simp only [process_lines, h1]
    rw [hg]
  · simp only [process_lines, h1]
    rw [hg]
    have hnoop : apply_calls (commit (apply_calls L io.calls ⟨[], []⟩) L)
        io.calls ⟨[], []⟩ = ⟨[], []⟩ := by
      apply apply_calls_noop
      intro c hc st
      obtain ⟨e, he, hce, hse⟩ := commit_good_entry L io.calls c hc hnd
      exact process_node_noop _ st c e he hce hse
    rw [hnoop]

/-- Witness for `reparse_after_commit_empty`: a two-line buffer with one
id-marked bullet item. -/
theorem reparse_after_commit_empty_witness :
    process_lines emptyLedger ["r".toList, "- [](q://aa)  x".toList] "rt".toList
        (.mk '-' 0 (.cons (.mk false 1 (.cons (.mk '-' 1 .nil) .nil)) .nil)) 2 0
        = .ok ((NTree.mk [("rt".toList,
              some (NTree.mk [("aa".toList, none)]))]).entries.getLastD
                ("rt".toList, none),
            apply_calls emptyLedger
              [⟨"aa".toList, ["x".toList], some []⟩,
                ⟨"rt".toList, ["r".toList], some ["aa".toList]⟩] ⟨[], []⟩, 0)
    ∧ process_lines
        (commit (apply_calls emptyLedger
          [⟨"aa".toList, ["x".toList], some []⟩,
            ⟨"rt".toList, ["r".toList], some ["aa".toList]⟩] ⟨[], []⟩) emptyLedger)
        ["r".toList, "- [](q://aa)  x".toList] "rt".toList
        (.mk '-' 0 (.cons (.mk false 1 (.cons (.mk '-' 1 .nil) .nil)) .nil)) 2 0
        = .ok ((NTree.mk [("rt".toList,
              some (NTree.mk [("aa".toList, none)]))]).entries.getLastD
                ("rt".toList, none), ⟨[], []⟩, 0) :=
  reparse_after_commit_empty emptyLedger ["r".toList, "- [](q://aa)  x".toList]
    "rt".toList
    (.mk '-' 0 (.cons (.mk false 1 (.cons (.mk '-' 1 .nil) .nil)) .nil)) 2 0
    ⟨NTree.mk [("rt".toList, some (NTree.mk [("aa".toList, none)]))],
      [("rt".toList, [(0, 2)])], NTree.mk [("aa".toList, none)],
      [⟨"aa".toList, ["x".toList], some []⟩,
        ⟨"rt".toList, ["r".toList], some ["aa".toList]⟩], 0⟩
    rfl rfl (by decide)

/-- Counterexample to C2 as stated: a buffer holding one marker-less bullet
item.  The first parse mints a fresh id for it; after committing the
resulting `ProcessState` into the ledger, re-running `process_lines` on the
identical buffer mints another fresh id and returns a `ProcessState` staging
content and children for it (and re-pointing the root) — not the empty
one. -/
theorem reparse_after_commit_nonempty :
    (process_lines emptyLedger ["r".toList, "- hello".toList] "rt".toList
        (.mk '-' 0 (.cons (.mk false 1 (.cons (.mk '-' 1 .nil) .nil)) .nil)) 2 0
      = .ok (("rt".toList, some (NTree.mk [(minted_node_id 0, none)])),
          ⟨[(minted_node_id 0, ["hello".toList]), ("rt".toList, ["r".toList])],
            [(minted_node_id 0, []), ("rt".toList, [minted_node_id 0])]⟩, 1))
    ∧ (process_lines
        (commit ⟨[(minted_node_id 0, ["hello".toList]), ("rt".toList, ["r".toList])],
            [(minted_node_id 0, []), ("rt".toList, [minted_node_id 0])]⟩
          emptyLedger)
        ["r".toList, "- hello".toList] "rt".toList
        (.mk '-' 0 (.cons (.mk false 1 (.cons (.mk '-' 1 .nil) .nil)) .nil)) 2 1
      = .ok (("rt".toList, some (NTree.mk [(minted_node_id 1, none)])),
          ⟨[(minted_node_id 1, ["hello".toList])],
            [(minted_node_id 1, []), ("rt".toList, [minted_node_id 1])]⟩, 2))
    ∧ (ProcessState.mk [(minted_node_id 1, ["hello".toList])]
          [(minted_node_id 1, []), ("rt".toList, [minted_node_id 1])]
        ≠ ⟨[], []⟩) :=
  ⟨rfl, rfl, by simp⟩

end Qualia
